import Mathlib

/-!
# Spirit — formal verification of the agent orchestration engine

A shallow embedding, in Lean 4, of the core of the `spirit` repository
(TypeScript): the provider stream parsers (`src/llm/anthropic.ts`,
`src/llm/openai.ts`), the agent loop (`src/agent-loop.ts`), the sub-agent
manager (`src/sub-agent.ts`), and the conversation data model
(`src/types.ts`).  Effectful boundaries (fetch, tool executors, the
permission hook, promise settlement) are modelled as explicit oracles;
machine integers are `Nat`/`Int`; fallible code returns `Option`/`Except`.

Naming: definitions keep the source's names where Lean allows; `Json`
models the ECMAScript JSON value universe and `jsonParse` the
`JSON.parse` host primitive (exceptions become `none`).
-/

namespace Spirit

/-! ## JSON values and `JSON.parse`

The stream parsers call `JSON.parse` on each SSE data line and on
accumulated tool-call argument payloads.  `Json.num m s` denotes the
number `m / 10^s` (JSON numbers on this wire protocol are integral
indices and token counts; the decimal representation is kept exact). -/

inductive Json where
  | null : Json
  | bool (b : Bool) : Json
  | num (m : Int) (scale : Nat) : Json
  | str (s : String) : Json
  | arr (elems : List Json) : Json
  | obj (fields : List (String × Json)) : Json
deriving Repr

def jsonWs (c : Char) : Bool :=
  c = ' ' || c = '\t' || c = '\n' || c = '\r'

def skipWs : List Char → List Char
  | [] => []
  | c :: cs => if jsonWs c then skipWs cs else c :: cs

def hexVal (c : Char) : Option Nat :=
  if '0' ≤ c ∧ c ≤ '9' then some (c.toNat - '0'.toNat)
  else if 'a' ≤ c ∧ c ≤ 'f' then some (c.toNat - 'a'.toNat + 10)
  else if 'A' ≤ c ∧ c ≤ 'F' then some (c.toNat - 'A'.toNat + 10)
  else none

/-- Parse the body of a JSON string literal (the opening quote already
consumed), handling the escape sequences `JSON.parse` accepts.  The
`Nat` argument is recursion fuel (any value above the input length is
enough). -/
def parseJStringF : Nat → List Char → Option (String × List Char)
  | 0, _ => none
  | _, [] => none
  | fuel + 1, c :: cs =>
    if c = '"' then some ("", cs)
    else if c = '\\' then
      match cs with
      | [] => none
      | e :: cs' =>
        let esc : Option (Char × List Char) :=
          if e = '"' then some ('"', cs')
          else if e = '\\' then some ('\\', cs')
          else if e = '/' then some ('/', cs')
          else if e = 'b' then some (Char.ofNat 8, cs')
          else if e = 'f' then some (Char.ofNat 12, cs')
          else if e = 'n' then some ('\n', cs')
          else if e = 'r' then some (Char.ofNat 13, cs')
          else if e = 't' then some ('\t', cs')
          else if e = 'u' then
            match cs' with
            | h1 :: h2 :: h3 :: h4 :: cs'' =>
              match hexVal h1, hexVal h2, hexVal h3, hexVal h4 with
              | some a, some b, some c3, some d =>
                some (Char.ofNat (((a * 16 + b) * 16 + c3) * 16 + d), cs'')
              | _, _, _, _ => none
            | _ => none
          else none
        match esc with
        | some (ch, rest) =>
          match parseJStringF fuel rest with
          | some (s, rest') => some (String.mk (ch :: s.data), rest')
          | none => none
        | none => none
    else if c.toNat < 32 then none
    else
      match parseJStringF fuel cs with
      | some (s, rest) => some (String.mk (c :: s.data), rest)
      | none => none

def parseJString (cs : List Char) : Option (String × List Char) :=
  parseJStringF (cs.length + 1) cs

def isDigit (c : Char) : Bool := '0' ≤ c && c ≤ '9'

def digitsVal (ds : List Char) : Nat :=
  ds.foldl (fun acc c => acc * 10 + (c.toNat - '0'.toNat)) 0

/-- Parse a JSON number: `-? int frac? exp?` with JSON's leading-zero
restriction.  Returns mantissa and decimal scale. -/
def parseJNumber (cs : List Char) : Option (Json × List Char) :=
  let (neg, cs1) :=
    match cs with
    | '-' :: rest => (true, rest)
    | _ => (false, cs)
  let intDigits := cs1.takeWhile isDigit
  let cs2 := cs1.dropWhile isDigit
  if intDigits = [] then none
  else if intDigits.length > 1 ∧ intDigits.head? = some '0' then none
  else
    let (fracDigits, cs3) :=
      match cs2 with
      | '.' :: rest =>
        (rest.takeWhile isDigit, rest.dropWhile isDigit)
      | _ => ([], cs2)
    if cs2 ≠ cs3 ∧ fracDigits = [] then none
    else
      let (expOk, expVal, cs4) :=
        match cs3 with
        | 'e' :: rest | 'E' :: rest =>
          let (esign, rest1) :=
            match rest with
            | '+' :: r => ((1 : Int), r)
            | '-' :: r => ((-1 : Int), r)
            | _ => ((1 : Int), rest)
          let eds := rest1.takeWhile isDigit
          let rest2 := rest1.dropWhile isDigit
          if eds = [] then (false, (0 : Int), rest2)
          else (true, esign * (digitsVal eds : Int), rest2)
        | _ => (true, (0 : Int), cs3)
      if ¬ expOk then none
      else
        let m0 : Int := (digitsVal intDigits * 10 ^ fracDigits.length
          + digitsVal fracDigits : Nat)
        let s0 : Int := (fracDigits.length : Int) - expVal
        let (m1, s1) : Int × Nat :=
          if s0 ≤ 0 then (m0 * 10 ^ (-s0).toNat, 0) else (m0, s0.toNat)
        some (Json.num (if neg then -m1 else m1) s1, cs4)

mutual

def parseJValue : Nat → List Char → Option (Json × List Char)
  | 0, _ => none
  | fuel + 1, cs =>
    match skipWs cs with
    | 'n' :: 'u' :: 'l' :: 'l' :: rest => some (Json.null, rest)
    | 't' :: 'r' :: 'u' :: 'e' :: rest => some (Json.bool true, rest)
    | 'f' :: 'a' :: 'l' :: 's' :: 'e' :: rest => some (Json.bool false, rest)
    | '"' :: rest =>
      match parseJString rest with
      | some (s, rest') => some (Json.str s, rest')
      | none => none
    | '[' :: rest =>
      (match skipWs rest with
       | ']' :: rest' => some (Json.arr [], rest')
       | _ =>
         match parseJElems fuel rest with
         | some (es, rest') => some (Json.arr es, rest')
         | none => none)
    | c :: rest =>
      if c = Char.ofNat 123 then
        match skipWs rest with
        | c' :: rest' =>
          if c' = Char.ofNat 125 then some (Json.obj [], rest')
          else
            (match parseJFields fuel (c' :: rest') with
             | some (fs, rest'') => some (Json.obj fs, rest'')
             | none => none)
        | [] => none
      else parseJNumber (c :: rest)
    | [] => none

/-- Comma-separated array elements, up to and including the closing
bracket. -/
def parseJElems : Nat → List Char → Option (List Json × List Char)
  | 0, _ => none
  | fuel + 1, cs =>
    match parseJValue fuel cs with
    | some (v, rest) =>
      (match skipWs rest with
       | ',' :: rest' =>
         match parseJElems fuel rest' with
         | some (vs, rest'') => some (v :: vs, rest'')
         | none => none
       | ']' :: rest' => some ([v], rest')
       | _ => none)
    | none => none

/-- Comma-separated object fields, up to and including the closing
brace. -/
def parseJFields : Nat → List Char → Option (List (String × Json) × List Char)
  | 0, _ => none
  | fuel + 1, cs =>
    match skipWs cs with
    | '"' :: rest =>
      (match parseJString rest with
       | some (k, rest1) =>
         (match skipWs rest1 with
          | ':' :: rest2 =>
            (match parseJValue fuel rest2 with
             | some (v, rest3) =>
               (match skipWs rest3 with
                | ',' :: rest4 =>
                  (match parseJFields fuel rest4 with
                   | some (fs, rest5) => some ((k, v) :: fs, rest5)
                   | none => none)
                | c :: rest4 =>
                  if c = Char.ofNat 125 then some ([(k, v)], rest4) else none
                | [] => none)
             | none => none)
          | _ => none)
       | none => none)
    | _ => none

end

/-- `JSON.parse` as a total function: `none` models a thrown
`SyntaxError`. -/
def jsonParse (s : String) : Option Json :=
  match parseJValue (s.length + 1) s.data with
  | some (v, rest) => if skipWs rest = [] then some v else none
  | none => none

/-! ## ECMAScript value helpers

The stream dispatchers access fields of parsed events
(`event.delta.text`, …) and use truthiness tests.  `JsVal` is a JSON
value or `undefined` (`none`). -/

abbrev JsVal := Option Json

/-- `x.f` in JS: property access on `undefined`/`null` throws a
`TypeError` (`Except.error`); on another primitive it yields
`undefined`; on an object it looks the key up. -/
def jsGet (v : JsVal) (k : String) : Except String JsVal :=
  match v with
  | none => Except.error "TypeError: cannot read properties of undefined"
  | some Json.null => Except.error "TypeError: cannot read properties of null"
  | some (Json.obj fields) => Except.ok (fields.lookup k)
  | some _ => Except.ok none

/-- `x?.f` in JS: `undefined` when the receiver is nullish. -/
def jsGetOpt (v : JsVal) (k : String) : JsVal :=
  match v with
  | none => none
  | some Json.null => none
  | some (Json.obj fields) => fields.lookup k
  | some _ => none

/-- `x?.[i]` on an array value. -/
def jsIndexOpt (v : JsVal) (i : Nat) : JsVal :=
  match v with
  | some (Json.arr elems) => elems.get? i
  | _ => none

/-- JS truthiness of a value (`NaN` is not representable here). -/
def truthy : JsVal → Bool
  | none => false
  | some Json.null => false
  | some (Json.bool b) => b
  | some (Json.num m _) => decide (m ≠ 0)
  | some (Json.str s) => decide (s ≠ "")
  | some (Json.arr _) => true
  | some (Json.obj _) => true

/-- `v === lit` for a string literal `lit`. -/
def jsEqStr (v : JsVal) (lit : String) : Bool :=
  match v with
  | some (Json.str s) => decide (s = lit)
  | _ => false

/-- Extract a JS string, `none` when the value is not a string. -/
def asStr : JsVal → Option String
  | some (Json.str s) => some s
  | _ => none

/-- `v ?? dflt` for string-valued fields (`??` substitutes only for
nullish values; a non-string non-nullish value is outside the wire
contract and mapped to `dflt` as well). -/
def strOr (v : JsVal) (dflt : String) : String :=
  match v with
  | some (Json.str s) => s
  | _ => dflt

/-- Read an integral JS number (stream indices, token counts). -/
def asNat : JsVal → Option Nat
  | some (Json.num m 0) => if m < 0 then none else some m.toNat
  | _ => none

/-- `v ?? 0` for token counters. -/
def natOr (v : JsVal) (dflt : Nat) : Nat :=
  match asNat v with
  | some n => n
  | none => dflt

/-! ## Server-sent-event chunk decoding

Both stream parsers share the loop

    buffer += decoder.decode(value, \x7b stream: true \x7d);
    const lines = buffer.split("\n");
    buffer = lines.pop()!;
    for (const line of lines) \x7b ... \x7d

Chunks are modelled as `List Char` (UTF-8 reassembly across chunk
boundaries is `TextDecoder`'s contract).  A parser is a state `σ` with a
step function consuming one complete line; errors are absorbed into `σ`
itself (see the per-backend instantiations below). -/

/-- `buffer.split("\n")` — always returns at least one (possibly empty)
part. -/
def splitNl : List Char → List (List Char)
  | [] => [[]]
  | c :: cs =>
    if c = '\n' then [] :: splitNl cs
    else
      match splitNl cs with
      | l :: ls => (c :: l) :: ls
      | [] => [[c]]

structure LineSink (σ : Type) where
  step : σ → List Char → σ

/-- One read iteration of the SSE loop: extend the carried partial line
with the chunk, process every complete line, keep the trailing partial
line. -/
def feedChunk {σ : Type} (m : LineSink σ) (p : σ × List Char)
    (chunk : List Char) : σ × List Char :=
  let parts := splitNl (p.2 ++ chunk)
  (parts.dropLast.foldl m.step p.1, parts.getLastD [])

/-- The whole read loop over a list of delivered chunks, starting from
an empty carried line. -/
def runChunks {σ : Type} (m : LineSink σ) (s : σ)
    (chunks : List (List Char)) : σ × List Char :=
  chunks.foldl (feedChunk m) (s, [])

/-- Character-level reference semantics of the same loop. -/
def feedChar {σ : Type} (m : LineSink σ) (p : σ × List Char) (c : Char) :
    σ × List Char :=
  if c = '\n' then (m.step p.1 p.2, []) else (p.1, p.2 ++ [c])

/-! ## Unified content model (`src/llm/types.ts`) -/

inductive LLMContentBlock where
  | text (t : String) : LLMContentBlock
  | thinking (t : String) : LLMContentBlock
  | toolUse (id name : String) (input : Json) : LLMContentBlock
deriving Repr

/-- `LLMStreamedResponse`; `stop_reason` is kept as the raw string the
backend assigned (the TS union type is not enforced at runtime). -/
structure LLMStreamedResponse where
  content : List LLMContentBlock
  stop_reason : String
  inputTokens : Nat
  outputTokens : Nat
deriving Repr

/-! insertion-ordered `Map<number, α>` (JS `Map` preserves insertion
order; `set` on an existing key updates in place) -/

def mapGet {α : Type} (m : List (Nat × α)) (k : Nat) : Option α :=
  m.lookup k

def mapHas {α : Type} (m : List (Nat × α)) (k : Nat) : Bool :=
  (m.lookup k).isSome

def mapSet {α : Type} (m : List (Nat × α)) (k : Nat) (v : α) :
    List (Nat × α) :=
  if mapHas m k then m.map (fun p => if p.1 = k then (k, v) else p)
  else m ++ [(k, v)]

def mapDelete {α : Type} (m : List (Nat × α)) (k : Nat) : List (Nat × α) :=
  m.filter (fun p => decide (p.1 ≠ k))

/-- `line.startsWith("data: ")` -/
def isDataLine (line : List Char) : Bool :=
  decide (line.take 6 = "data: ".data)

/-- `line.slice(6).trim()` (the whitespace actually occurring on this
wire: space, tab, CR, LF) -/
def sliceTrim (line : List Char) : String :=
  String.mk (((line.drop 6).dropWhile jsonWs).reverse.dropWhile jsonWs
    |>.reverse)

/-! ## `AnthropicProvider.parseSSEStream` (`src/llm/anthropic.ts`)

One accumulator map per concurrently-building block kind, keyed by the
backend-assigned index.  Dispatch faithfully reproduces the JS field
accesses: property access on `undefined`/`null` is a thrown `TypeError`
(which rejects the stream promise, since only `JSON.parse` is inside
the `try`).  Stream indices are required to be integral numbers, as the
wire contract specifies. -/

structure AnthState where
  contentBlocks : List LLMContentBlock
  stopReason : String
  inputTokens : Nat
  outputTokens : Nat
  blockTexts : List (Nat × String)
  blockThinking : List (Nat × String)
  blockToolJsons : List (Nat × String)
  blockToolMeta : List (Nat × (String × String))
deriving Repr

def anthInit : AnthState :=
  ⟨[], "end_turn", 0, 0, [], [], [], []⟩

/-- read `event.index` (integral per the wire contract) -/
def readIndex (ev : Json) : Except String Nat := do
  let idxv ← jsGet (some ev) "index"
  match asNat idxv with
  | some idx => pure idx
  | none => Except.error "TypeError: non-integral stream index"

/-- the `switch (event.type)` body of the Anthropic stream loop -/
def anthEvent (st : AnthState) (ev : Json) : Except String AnthState := do
  let t ← jsGet (some ev) "type"
  if jsEqStr t "error" then
    let e ← jsGet (some ev) "error"
    let msg ← jsGet e "message"
    Except.error ("Stream error: " ++ strOr msg "undefined")
  else if jsEqStr t "message_start" then
    let m ← jsGet (some ev) "message"
    let usage ← jsGet m "usage"
    let it ← jsGet usage "input_tokens"
    pure { st with inputTokens := natOr it 0 }
  else if jsEqStr t "content_block_start" then
    let cb ← jsGet (some ev) "content_block"
    let cbt ← jsGet cb "type"
    if jsEqStr cbt "text" then
      let idx ← readIndex ev
      let txt ← jsGet cb "text"
      pure { st with blockTexts := mapSet st.blockTexts idx (strOr txt "") }
    else if jsEqStr cbt "thinking" then
      let idx ← readIndex ev
      let th ← jsGet cb "thinking"
      pure { st with
        blockThinking := mapSet st.blockThinking idx (strOr th "") }
    else if jsEqStr cbt "tool_use" then
      let idx ← readIndex ev
      let idv ← jsGet cb "id"
      let namev ← jsGet cb "name"
      pure { st with
        blockToolMeta :=
          mapSet st.blockToolMeta idx (strOr idv "", strOr namev ""),
        blockToolJsons := mapSet st.blockToolJsons idx "" }
    else pure st
  else if jsEqStr t "content_block_delta" then
    let d ← jsGet (some ev) "delta"
    let dt ← jsGet d "type"
    if jsEqStr dt "text_delta" then
      let idx ← readIndex ev
      let dtext ← jsGet d "text"
      let prev := (mapGet st.blockTexts idx).getD ""
      pure { st with
        blockTexts := mapSet st.blockTexts idx (prev ++ strOr dtext "") }
    else if jsEqStr dt "thinking_delta" then
      let idx ← readIndex ev
      let dth ← jsGet d "thinking"
      let prev := (mapGet st.blockThinking idx).getD ""
      pure { st with
        blockThinking := mapSet st.blockThinking idx (prev ++ strOr dth "") }
    else if jsEqStr dt "input_json_delta" then
      let idx ← readIndex ev
      let dj ← jsGet d "partial_json"
      let prev := (mapGet st.blockToolJsons idx).getD ""
      pure { st with
        blockToolJsons := mapSet st.blockToolJsons idx (prev ++ strOr dj "") }
    else pure st
  else if jsEqStr t "content_block_stop" then
    let idx ← readIndex ev
    if mapHas st.blockTexts idx then
      pure { st with
        contentBlocks := st.contentBlocks
          ++ [LLMContentBlock.text ((mapGet st.blockTexts idx).getD "")],
        blockTexts := mapDelete st.blockTexts idx }
    else if mapHas st.blockThinking idx then
      pure { st with
        contentBlocks := st.contentBlocks
          ++ [LLMContentBlock.thinking
                ((mapGet st.blockThinking idx).getD "")],
        blockThinking := mapDelete st.blockThinking idx }
    else if mapHas st.blockToolMeta idx then
      let meta := (mapGet st.blockToolMeta idx).getD ("", "")
      let json := (mapGet st.blockToolJsons idx).getD "{}"
      -- try \x7b input = JSON.parse(json) \x7d catch \x7b input = \x7b\x7d \x7d
      let input := (jsonParse json).getD (Json.obj [])
      pure { st with
        contentBlocks := st.contentBlocks
          ++ [LLMContentBlock.toolUse meta.1 meta.2 input],
        blockToolMeta := mapDelete st.blockToolMeta idx,
        blockToolJsons := mapDelete st.blockToolJsons idx }
    else pure st
  else if jsEqStr t "message_delta" then
    let d ← jsGet (some ev) "delta"
    let sr ← jsGet d "stop_reason"
    let usage ← jsGet (some ev) "usage"
    let ot ← jsGet usage "output_tokens"
    pure { st with stopReason := strOr sr "", outputTokens := natOr ot 0 }
  else pure st

/-- one complete line of the Anthropic SSE loop -/
def anthLine (st : AnthState) (line : List Char) : Except String AnthState :=
  if ¬ isDataLine line then Except.ok st
  else
    let data := sliceTrim line
    if data = "[DONE]" then Except.ok st
    else
      match jsonParse data with
      | none => Except.ok st      -- try/catch around JSON.parse: continue
      | some ev => anthEvent st ev

def anthropicSink : LineSink (Except String AnthState) :=
  ⟨fun s line =>
    match s with
    | Except.error e => Except.error e
    | Except.ok st => anthLine st line⟩

namespace AnthropicProvider

/-- `AnthropicProvider.parseSSEStream`, as a function of the delivered
byte chunks.  The trailing partial line left in `buffer` at stream end
is discarded, exactly as in the source. -/
def parseSSEStream (chunks : List (List Char)) :
    Except String LLMStreamedResponse :=
  match (runChunks anthropicSink (Except.ok anthInit) chunks).1 with
  | Except.error e => Except.error e
  | Except.ok st =>
    Except.ok ⟨st.contentBlocks, st.stopReason, st.inputTokens,
      st.outputTokens⟩

end AnthropicProvider

/-! ## `OpenAIProvider.parseSSEStream` (`src/llm/openai.ts`)

Tool-call deltas are addressed by a positional index with no per-call
stop event; calls are finalized at stream end, where
`JSON.parse(tc.args || "\x7b\x7d")` is **not** guarded by a try/catch:
a malformed accumulated payload rejects the stream promise. -/

structure OAIToolCall where
  id : String
  name : String
  args : String
deriving Repr

structure OAIState where
  textContent : String
  toolCalls : List (Nat × OAIToolCall)
  stopReason : String
  inputTokens : Nat
  outputTokens : Nat
deriving Repr

def oaiInit : OAIState := ⟨"", [], "end_turn", 0, 0⟩

/-- `for (const tc of delta.tool_calls)` body -/
def oaiToolDelta (calls : List (Nat × OAIToolCall)) (tc : JsVal) :
    Except String (List (Nat × OAIToolCall)) := do
  let idxv ← jsGet tc "index"
  match asNat idxv with
  | none => Except.error "TypeError: non-integral tool-call index"
  | some idx => do
    let idv ← jsGet tc "id"
    let fv ← jsGet tc "function"
    let namev := jsGetOpt fv "name"
    let argsv := jsGetOpt fv "arguments"
    let calls :=
      if ¬ mapHas calls idx then
        mapSet calls idx ⟨strOr idv "", strOr namev "", ""⟩
      else calls
    let call := (mapGet calls idx).getD ⟨"", "", ""⟩
    let call := if truthy idv then { call with id := strOr idv "" } else call
    let call :=
      if truthy namev then { call with name := strOr namev "" } else call
    let call :=
      if truthy argsv then { call with args := call.args ++ strOr argsv "" }
      else call
    pure (mapSet calls idx call)

/-- one parsed event of the OpenAI stream loop -/
def oaiEvent (st : OAIState) (ev : Json) : Except String OAIState := do
  let chv ← jsGet (some ev) "choices"
  let choice := jsIndexOpt chv 0
  if ¬ truthy choice then pure st
  else do
    let delta ← jsGet choice "delta"
    let st ←
      if truthy (jsGetOpt delta "content") then
        pure { st with
          textContent := st.textContent ++ strOr (jsGetOpt delta "content") "" }
      else pure st
    let st ←
      if truthy (jsGetOpt delta "tool_calls") then
        match jsGetOpt delta "tool_calls" with
        | some (Json.arr elems) => do
          let calls ← elems.foldlM
            (fun cs e => oaiToolDelta cs (some e)) st.toolCalls
          pure { st with toolCalls := calls }
        | _ => Except.error "TypeError: tool_calls is not iterable"
      else pure st
    let fr ← jsGet choice "finish_reason"
    let st :=
      if truthy fr then
        if jsEqStr fr "tool_calls" then { st with stopReason := "tool_use" }
        else if jsEqStr fr "length" then { st with stopReason := "max_tokens" }
        else st
      else st
    let uv ← jsGet (some ev) "usage"
    if truthy uv then
      let pt := jsGetOpt uv "prompt_tokens"
      let ct := jsGetOpt uv "completion_tokens"
      pure { st with inputTokens := natOr pt 0, outputTokens := natOr ct 0 }
    else pure st

def oaiLine (st : OAIState) (line : List Char) : Except String OAIState :=
  if ¬ isDataLine line then Except.ok st
  else
    let data := sliceTrim line
    if data = "[DONE]" then Except.ok st
    else
      match jsonParse data with
      | none => Except.ok st
      | some ev => oaiEvent st ev

def openaiSink : LineSink (Except String OAIState) :=
  ⟨fun s line =>
    match s with
    | Except.error e => Except.error e
    | Except.ok st => oaiLine st line⟩

namespace OpenAIProvider

/-- `for (const [_, tc] of toolCalls)`: push each finalized call in
insertion order; note the **unguarded** `JSON.parse(tc.args || "\x7b\x7d")`
— its exception rejects the whole stream promise. -/
def assembleCalls (acc : List LLMContentBlock)
    (calls : List (Nat × OAIToolCall)) : Except String (List LLMContentBlock) :=
  match calls with
  | [] => Except.ok acc
  | p :: rest =>
    match jsonParse (if p.2.args = "" then "{}" else p.2.args) with
    | none => Except.error "SyntaxError: Unexpected token in JSON"
    | some j =>
      assembleCalls (acc ++ [LLMContentBlock.toolUse p.2.id p.2.name j]) rest

/-- the assembly phase after the read loop: the text block (if any),
then the tool calls. -/
def assemble (st : OAIState) : Except String LLMStreamedResponse := do
  let base := if st.textContent ≠ "" then [LLMContentBlock.text st.textContent]
    else []
  let content ← assembleCalls base st.toolCalls
  pure ⟨content, st.stopReason, st.inputTokens, st.outputTokens⟩

/-- `OpenAIProvider.parseSSEStream` over the delivered chunks. -/
def parseSSEStream (chunks : List (List Char)) :
    Except String LLMStreamedResponse :=
  match (runChunks openaiSink (Except.ok oaiInit) chunks).1 with
  | Except.error e => Except.error e
  | Except.ok st => assemble st

end OpenAIProvider

/-! ## String coercions used by `describeToolUse`

`jsonStringify` models `JSON.stringify` (no spacing); `jsToString`
models template-literal coercion. -/

def numToString (m : Int) (s : Nat) : String :=
  if s = 0 then toString m
  else
    let sign := if m < 0 then "-" else ""
    let ds := toString m.natAbs
    let ds :=
      if ds.length ≤ s then
        String.mk (List.replicate (s + 1 - ds.length) '0') ++ ds
      else ds
    sign ++ ds.take (ds.length - s) ++ "." ++ ds.drop (ds.length - s)

def hexDigitChar (n : Nat) : Char :=
  if n < 10 then Char.ofNat ('0'.toNat + n) else Char.ofNat ('a'.toNat + n - 10)

def escChar (c : Char) : String :=
  if c = '"' then "\\\""
  else if c = '\\' then "\\\\"
  else if c = '\n' then "\\n"
  else if c = '\t' then "\\t"
  else if c = Char.ofNat 13 then "\\r"
  else if c = Char.ofNat 8 then "\\b"
  else if c = Char.ofNat 12 then "\\f"
  else if c.toNat < 32 then
    "\\u00" ++ String.mk [hexDigitChar (c.toNat / 16), hexDigitChar (c.toNat % 16)]
  else String.mk [c]

def jstrQuote (s : String) : String :=
  "\"" ++ String.join (s.data.map escChar) ++ "\""

mutual

def jsonStringify : Json → String
  | Json.null => "null"
  | Json.bool true => "true"
  | Json.bool false => "false"
  | Json.num m s => numToString m s
  | Json.str s => jstrQuote s
  | Json.arr es => "[" ++ stringifyElems es ++ "]"
  | Json.obj fs => "\x7b" ++ stringifyFields fs ++ "\x7d"

def stringifyElems : List Json → String
  | [] => ""
  | [j] => jsonStringify j
  | j :: rest => jsonStringify j ++ "," ++ stringifyElems rest

def stringifyFields : List (String × Json) → String
  | [] => ""
  | [(k, v)] => jstrQuote k ++ ":" ++ jsonStringify v
  | (k, v) :: rest =>
    jstrQuote k ++ ":" ++ jsonStringify v ++ "," ++ stringifyFields rest

end

mutual

/-- template-literal coercion of a defined JSON value -/
def jsonValToString : Json → String
  | Json.null => "null"
  | Json.bool true => "true"
  | Json.bool false => "false"
  | Json.num m s => numToString m s
  | Json.str s => s
  | Json.arr es => arrJoin es
  | Json.obj _ => "[object Object]"

/-- `Array.prototype.toString` is `join(",")`, which renders `null`
elements as the empty string -/
def arrJoin : List Json → String
  | [] => ""
  | [j] => arrElem j
  | j :: rest => arrElem j ++ "," ++ arrJoin rest

def arrElem : Json → String
  | Json.null => ""
  | j => jsonValToString j

end

def jsToString : JsVal → String
  | none => "undefined"
  | some j => jsonValToString j

/-! ## Agent loop data model (`src/types.ts`) -/

inductive Role where
  | user : Role
  | assistant : Role
deriving Repr, DecidableEq

structure ToolUseBlock where
  id : String
  name : String
  input : Json
deriving Repr

structure ToolResultBlock where
  tool_use_id : String
  content : String
  is_error : Bool
deriving Repr

/-- `Message.content` is a string, a block list, or a tool-result
list. -/
inductive MsgContent where
  | ofString (s : String) : MsgContent
  | blocks (bs : List LLMContentBlock) : MsgContent
  | results (rs : List ToolResultBlock) : MsgContent
deriving Repr

structure Message where
  role : Role
  content : MsgContent
deriving Repr

/-- `SpiritStats` without `elapsedMs`, which is wall-clock time
(`Date.now()` readings) and lies outside the pure model; no claim
concerns it. -/
structure SpiritStats where
  inputTokens : Nat
  outputTokens : Nat
  totalTokens : Nat
  turns : Nat
  toolCalls : Nat
deriving Repr, DecidableEq

structure PermissionRequest where
  tool : String
  description : String
  input : Json
deriving Repr

/-- `AgentConfig`: the fields `AgentLoop.run` reads, plus
`toolTimeoutMs`, which `types.ts` declares ("Per-tool execution timeout
in ms (default 30000)").  `apiKey`/`model` only configure the HTTP
client and the pure notification callbacks (`onText`, …) are modelled
as trace events. -/
structure AgentConfig where
  maxTurns : Option Nat
  maxTokens : Option Nat
  systemPrompt : Option String
  thinkingBudget : Option Nat
  toolTimeoutMs : Option Nat
  onPermissionRequest : Option (PermissionRequest → Bool)

/-! ## `AgentLoop.run` (`src/agent-loop.ts`)

Effect oracles: `provider i` is what the `i`-th awaited
`createMessageStream` call settles to; `exec name input` is what
`tools.execute` settles to (a tool executor may also never settle).
The trace records the observable notification points. -/

def DANGEROUS_TOOLS : List String := ["Bash", "Write", "Edit"]

inductive ProviderOutcome where
  | ok (r : LLMStreamedResponse) : ProviderOutcome
  | err (msg : String) : ProviderOutcome

inductive ToolOutcome where
  | ok (result : String) : ToolOutcome
  | thrown (msg : String) : ToolOutcome
  | hang : ToolOutcome

inductive TraceEvent where
  | statsEmitted (s : SpiritStats) : TraceEvent
  | permissionAsked (req : PermissionRequest) : TraceEvent
  | toolStart (name : String) (input : Json) : TraceEvent
  | execInvoked (name : String) (input : Json) : TraceEvent
  | toolEnd (name : String) (result : String) : TraceEvent
  | errorNotified (msg : String) : TraceEvent

inductive RunOutcome where
  | returned (s : String) : RunOutcome
  | threw (msg : String) : RunOutcome
  | hung : RunOutcome
deriving Repr, DecidableEq

structure LoopState where
  messages : List Message
  stats : SpiritStats
deriving Repr

/-- `describeToolUse` (`src/agent-loop.ts`) -/
def describeToolUse (toolUse : ToolUseBlock) : String :=
  if toolUse.name = "Bash" then
    "Run command: " ++ jsToString (jsGetOpt (some toolUse.input) "command")
  else if toolUse.name = "Write" then
    "Write to " ++ jsToString (jsGetOpt (some toolUse.input) "file_path")
  else if toolUse.name = "Edit" then
    "Edit " ++ jsToString (jsGetOpt (some toolUse.input) "file_path")
  else
    toolUse.name ++ ": " ++ (jsonStringify toolUse.input).take 100

structure ToolBatch where
  results : List ToolResultBlock
  stats : SpiritStats
  trace : List TraceEvent
  hung : Bool

/-- the body of `for (const toolUse of toolUses)` (lines 251–304):
counter bump, permission gate for the dangerous set, dispatch with
error wrapping.  A hanging executor freezes the batch (the `await`
never resolves). -/
def execOneTool (cfg : AgentConfig) (exec : String → Json → ToolOutcome)
    (b : ToolBatch) (toolUse : ToolUseBlock) : ToolBatch :=
  if b.hung then b
  else
    let stats := { b.stats with toolCalls := b.stats.toolCalls + 1 }
    let gated : Bool :=
      decide (toolUse.name ∈ DANGEROUS_TOOLS) && cfg.onPermissionRequest.isSome
    let denied : Bool :=
      match cfg.onPermissionRequest with
      | some hook =>
        if toolUse.name ∈ DANGEROUS_TOOLS then
          ! hook ⟨toolUse.name, describeToolUse toolUse, toolUse.input⟩
        else false
      | none => false
    let trace :=
      if gated then
        b.trace ++ [TraceEvent.permissionAsked
          ⟨toolUse.name, describeToolUse toolUse, toolUse.input⟩]
      else b.trace
    if gated && denied then
      -- record the error result and `continue` (no emitStats on this path)
      { results := b.results
          ++ [⟨toolUse.id, "Permission denied by user.", true⟩],
        stats := stats, trace := trace, hung := false }
    else
      let trace := trace ++ [TraceEvent.toolStart toolUse.name toolUse.input,
        TraceEvent.execInvoked toolUse.name toolUse.input]
      match exec toolUse.name toolUse.input with
      | ToolOutcome.ok r =>
        { results := b.results ++ [⟨toolUse.id, r, false⟩],
          stats := stats,
          trace := trace ++ [TraceEvent.toolEnd toolUse.name r,
            TraceEvent.statsEmitted stats],
          hung := false }
      | ToolOutcome.thrown m =>
        { results := b.results ++ [⟨toolUse.id, "Error: " ++ m, true⟩],
          stats := stats,
          trace := trace ++ [TraceEvent.errorNotified m,
            TraceEvent.statsEmitted stats],
          hung := false }
      | ToolOutcome.hang =>
        { results := b.results, stats := stats, trace := trace, hung := true }

def execToolUses (cfg : AgentConfig) (exec : String → Json → ToolOutcome)
    (toolUses : List ToolUseBlock) (stats : SpiritStats) : ToolBatch :=
  toolUses.foldl (execOneTool cfg exec) ⟨[], stats, [], false⟩

def textPartsOf (bs : List LLMContentBlock) : List String :=
  bs.filterMap fun b =>
    match b with
    | LLMContentBlock.text t => some t
    | _ => none

def toolUsesOf (bs : List LLMContentBlock) : List ToolUseBlock :=
  bs.filterMap fun b =>
    match b with
    | LLMContentBlock.toolUse i n inp => some ⟨i, n, inp⟩
    | _ => none

/-- the `while (this.stats.turns < maxTurns)` loop; the fuel is the
remaining turn budget (`turns` grows by exactly one per iteration). -/
def runAux (cfg : AgentConfig) (provider : Nat → ProviderOutcome)
    (exec : String → Json → ToolOutcome) :
    Nat → Nat → LoopState → RunOutcome × LoopState × List TraceEvent
  | 0, _, st => (RunOutcome.returned "[Spirit: max turns reached]", st, [])
  | fuel + 1, callIdx, st =>
    match provider callIdx with
    | ProviderOutcome.err m => (RunOutcome.threw m, st, [])
    | ProviderOutcome.ok streamed =>
      let stats : SpiritStats :=
        { inputTokens := st.stats.inputTokens + streamed.inputTokens,
          outputTokens := st.stats.outputTokens + streamed.outputTokens,
          totalTokens := st.stats.inputTokens + streamed.inputTokens
            + (st.stats.outputTokens + streamed.outputTokens),
          turns := st.stats.turns + 1,
          toolCalls := st.stats.toolCalls }
      let trace0 := [TraceEvent.statsEmitted stats]
      let msgs1 := st.messages ++ [⟨Role.assistant, MsgContent.blocks streamed.content⟩]
      let toolUses := toolUsesOf streamed.content
      if toolUses.isEmpty then
        (RunOutcome.returned (String.join (textPartsOf streamed.content)),
          ⟨msgs1, stats⟩, trace0)
      else
        let batch := execToolUses cfg exec toolUses stats
        if batch.hung then
          (RunOutcome.hung, ⟨msgs1, batch.stats⟩, trace0 ++ batch.trace)
        else
          let st2 : LoopState :=
            ⟨msgs1 ++ [⟨Role.user, MsgContent.results batch.results⟩],
              batch.stats⟩
          let rec0 := runAux cfg provider exec fuel (callIdx + 1) st2
          (rec0.1, rec0.2.1, trace0 ++ batch.trace ++ rec0.2.2)

def DEFAULT_MAX_TURNS : Nat := 50

namespace AgentLoop

/-- `AgentLoop.run(userMessage)` from an arbitrary pre-run state. -/
def run (cfg : AgentConfig) (provider : Nat → ProviderOutcome)
    (exec : String → Json → ToolOutcome) (st : LoopState)
    (userMessage : String) : RunOutcome × LoopState × List TraceEvent :=
  let st1 : LoopState :=
    { st with messages := st.messages
        ++ [⟨Role.user, MsgContent.ofString userMessage⟩] }
  runAux cfg provider exec
    (cfg.maxTurns.getD DEFAULT_MAX_TURNS - st1.stats.turns) 0 st1

inductive CompactOutcome where
  | returned (s : String) : CompactOutcome
  | threw (msg : String) : CompactOutcome
deriving Repr, DecidableEq

/-- `AgentLoop.compact()`: `summaryCall` is what the extra
`createMessage` call settles to (its `content` field is the response's
block list). -/
def compact (messages : List Message) (summaryCall : ProviderOutcome) :
    CompactOutcome × List Message :=
  if messages.length < 4 then
    (CompactOutcome.returned "Nothing to compact", messages)
  else
    match summaryCall with
    | ProviderOutcome.err m => (CompactOutcome.threw m, messages)
    | ProviderOutcome.ok resp =>
      let summary := String.join (textPartsOf resp.content)
      let oldCount := messages.length
      (CompactOutcome.returned ("Compacted " ++ toString oldCount
          ++ " messages → summary (" ++ toString summary.length ++ " chars)"),
        [⟨Role.user, MsgContent.ofString
            ("[Conversation summary from " ++ toString oldCount
              ++ " messages]\n\n" ++ summary)⟩,
          ⟨Role.assistant, MsgContent.ofString
            "Understood. I have the context from the conversation summary. How can I continue helping?"⟩])

/-- `AgentLoop.clearHistory()` (task list not modelled). -/
def clearHistory : LoopState :=
  ⟨[], ⟨0, 0, 0, 0, 0⟩⟩

end AgentLoop

/-! ## `SubAgentManager` (`src/sub-agent.ts`)

A spawned child runs its own `AgentLoop`; the `.then`/`.catch` chain
attached in `spawn` converts settlement of `loop.run(prompt)` into a
`SubAgentResult`, so the stored promise never rejects.  Promise
settlement is modelled explicitly. -/

inductive PromiseState (α : Type) where
  | pending : PromiseState α
  | fulfilled (v : α) : PromiseState α
  | rejected (reason : String) : PromiseState α

inductive SettledResult (α : Type) where
  | fulfilled (v : α) : SettledResult α
  | rejected (reason : String) : SettledResult α

inductive SubStatus where
  | completed : SubStatus
  | error : SubStatus
deriving Repr, DecidableEq

structure SubAgentResult where
  id : String
  prompt : String
  result : String
  status : SubStatus
  error : Option String
deriving Repr, DecidableEq

/-- a spawned child as tracked in the `agents` map, with the settlement
of its underlying `loop.run(prompt)` given as an oracle -/
structure SpawnedAgent where
  id : String
  prompt : String
  description : Option String
  runState : PromiseState String

namespace SubAgentManager

/-- the derived child configuration built in `spawn`: UX callbacks
stripped (in particular the permission hook), turn budget clamped —
note `this.config.maxTurns ? Math.min(this.config.maxTurns, 20) : 20`
treats a configured `0` as falsy. -/
def childConfig (cfg : AgentConfig) : AgentConfig :=
  { cfg with
    maxTurns :=
      some (match cfg.maxTurns with
        | some m => if m = 0 then 20 else min m 20
        | none => 20),
    onPermissionRequest := none }

/-- the `.then`/`.catch` chain of `spawn` -/
def settleResult (id prompt : String) (description : Option String) :
    Except String String → SubAgentResult
  | Except.ok result =>
    ⟨id, description.getD (prompt.take 80), result, SubStatus.completed, none⟩
  | Except.error m =>
    ⟨id, description.getD (prompt.take 80), "", SubStatus.error, some m⟩

/-- the promise stored in the `agents` map: fulfilled with a
`SubAgentResult` whichever way `run` settles -/
def agentPromise (a : SpawnedAgent) : PromiseState SubAgentResult :=
  match a.runState with
  | PromiseState.pending => PromiseState.pending
  | PromiseState.fulfilled r =>
    PromiseState.fulfilled (settleResult a.id a.prompt a.description (Except.ok r))
  | PromiseState.rejected m =>
    PromiseState.fulfilled (settleResult a.id a.prompt a.description (Except.error m))

def isPending {α : Type} : PromiseState α → Bool
  | PromiseState.pending => true
  | _ => false

def toSettled {α : Type} : PromiseState α → Option (SettledResult α)
  | PromiseState.fulfilled v => some (SettledResult.fulfilled v)
  | PromiseState.rejected m => some (SettledResult.rejected m)
  | PromiseState.pending => none

/-- `Promise.allSettled`: resolves once no input is pending, preserving
order, never rejecting -/
def allSettled {α : Type} (ps : List (PromiseState α)) :
    PromiseState (List (SettledResult α)) :=
  if ps.any isPending then PromiseState.pending
  else PromiseState.fulfilled (ps.filterMap toSettled)

/-- the per-entry mapping of `waitAll`'s result list: a fulfilled
settlement passes through, a rejected one is substituted by the
synthetic `\x7bid: "?"\x7d` error entry -/
def settledEntry : SettledResult SubAgentResult → SubAgentResult
  | SettledResult.fulfilled v => v
  | SettledResult.rejected reason => ⟨"?", "", "", SubStatus.error, some reason⟩

/-- `SubAgentManager.waitAll()` over the currently-running agents -/
def waitAll (agents : List SpawnedAgent) :
    PromiseState (List SubAgentResult) :=
  match allSettled (agents.map agentPromise) with
  | PromiseState.pending => PromiseState.pending
  | PromiseState.rejected m => PromiseState.rejected m
  | PromiseState.fulfilled rs => PromiseState.fulfilled (rs.map settledEntry)

end SubAgentManager

/-- the settled `SubAgentResult` of a non-pending child run (the "?"
placeholder is never produced for a real agent, as C9 proves) -/
def runSettled (a : SpawnedAgent) : SubAgentResult :=
  match a.runState with
  | PromiseState.pending => ⟨"?", "", "", SubStatus.error, none⟩
  | PromiseState.fulfilled r =>
    SubAgentManager.settleResult a.id a.prompt a.description (Except.ok r)
  | PromiseState.rejected m =>
    SubAgentManager.settleResult a.id a.prompt a.description (Except.error m)

/-! ## The retry wrapper around provider calls

Modelled from the spec: `ApiClient.createMessageStream` — the function
`AgentLoop.run` awaits for every provider call — is not among the
sources (`src/api-client.ts` defines only `createMessage`); only its
caller is.  Per spec §4.2(a)/§7/§9 it wraps each logical call in a
retry loop: up to 3 additional attempts (4 total), exponential backoff
starting at 1000 ms and doubling, re-attempting only failures whose
HTTP status (extracted from the error text) is in
\x7b429, 500, 502, 503, 529\x7d; a failure with any other status, or with
no status, surfaces immediately. -/

inductive AttemptOutcome where
  | ok (r : LLMStreamedResponse) : AttemptOutcome
  | fail (status : Option Nat) (msg : String) : AttemptOutcome

def retryableStatuses : List Nat := [429, 500, 502, 503, 529]

def isRetryable (status : Option Nat) : Bool :=
  match status with
  | some s => decide (s ∈ retryableStatuses)
  | none => false

structure RetryResult where
  outcome : ProviderOutcome
  delays : List Nat
  attemptsUsed : Nat

/-- Modelled from the spec: the retry loop, with the backoff delays it
sleeps recorded in order. -/
def withRetryGo (attempt : Nat → AttemptOutcome) :
    Nat → Nat → Nat → List Nat → RetryResult
  | retries, delay, idx, delays =>
    match attempt idx with
    | AttemptOutcome.ok r => ⟨ProviderOutcome.ok r, delays, idx + 1⟩
    | AttemptOutcome.fail status m =>
      match retries with
      | 0 => ⟨ProviderOutcome.err m, delays, idx + 1⟩
      | retries' + 1 =>
        if isRetryable status then
          withRetryGo attempt retries' (delay * 2) (idx + 1) (delays ++ [delay])
        else ⟨ProviderOutcome.err m, delays, idx + 1⟩

/-- Modelled from the spec: one logical provider call under the retry
wrapper (4 attempts total, first backoff 1000 ms). -/
def withRetry (attempt : Nat → AttemptOutcome) : RetryResult :=
  withRetryGo attempt 3 1000 0 []

/-- `AgentLoop.run` with every provider call routed through the retry
wrapper: `attempts turn i` is the outcome of the `i`-th attempt of the
provider call made on turn `turn`. -/
def runWithRetry (cfg : AgentConfig) (attempts : Nat → Nat → AttemptOutcome)
    (exec : String → Json → ToolOutcome) (st : LoopState)
    (userMessage : String) : RunOutcome × LoopState × List TraceEvent :=
  AgentLoop.run cfg (fun turn => (withRetry (attempts turn)).outcome)
    exec st userMessage

/-! ## Observation helpers over traces, stats and conversations -/

def isPermissionEvent : TraceEvent → Bool
  | TraceEvent.permissionAsked _ => true
  | _ => false

def isExecEvent : TraceEvent → Bool
  | TraceEvent.execInvoked _ _ => true
  | _ => false

/-- the successive stats snapshots passed to `emitStats` -/
def emittedStats (trace : List TraceEvent) : List SpiritStats :=
  trace.filterMap fun e =>
    match e with
    | TraceEvent.statsEmitted s => some s
    | _ => none

/-- pointwise order on the monotone stats counters -/
def statsLE (a b : SpiritStats) : Prop :=
  a.inputTokens ≤ b.inputTokens ∧ a.outputTokens ≤ b.outputTokens
    ∧ a.turns ≤ b.turns ∧ a.toolCalls ≤ b.toolCalls

instance : DecidablePred (fun p : SpiritStats × SpiritStats => statsLE p.1 p.2) :=
  fun _ => by unfold statsLE; infer_instance

/-- agreement on every stats field except `toolCalls` (a tool batch
only bumps the call counter) -/
def statsFieldsEq (a b : SpiritStats) : Prop :=
  a.inputTokens = b.inputTokens ∧ a.outputTokens = b.outputTokens
    ∧ a.totalTokens = b.totalTokens ∧ a.turns = b.turns

/-- the tool uses of an assistant block message (empty otherwise) -/
def assistantToolUses (m : Message) : List ToolUseBlock :=
  match m with
  | ⟨Role.assistant, MsgContent.blocks bs⟩ => toolUsesOf bs
  | _ => []

/-- does the next message exist, carry user-role tool results, and
match the tool uses of `m` one-for-one, in order, by id? -/
def nextResultsMatch (m : Message) : List Message → Bool
  | ⟨Role.user, MsgContent.results rs⟩ :: _ =>
    decide (rs.map (fun r => r.tool_use_id)
      = (assistantToolUses m).map (fun t => t.id))
  | _ => false

/-- the conversation invariant of C3: every assistant message carrying
tool uses is immediately followed by one user message whose tool
results match them by id, in order. -/
def toolPairingOK : List Message → Bool
  | [] => true
  | m :: rest =>
    (if (assistantToolUses m).isEmpty then true else nextResultsMatch m rest)
      && toolPairingOK rest

/-! ## Concrete wire data used in witnesses and counterexamples -/

/-- a `content_block_stop` event for index `idx` -/
def mkStopEvent (idx : Nat) : Json :=
  Json.obj [("type", Json.str "content_block_stop"), ("index", Json.num idx 0)]

def anthL1 : String :=
  "data: \x7b\"type\":\"message_start\",\"message\":\x7b\"usage\":\x7b\"input_tokens\":10\x7d\x7d\x7d\n"

def anthL2 : String :=
  "data: \x7b\"type\":\"content_block_start\",\"index\":0,\"content_block\":\x7b\"type\":\"tool_use\",\"id\":\"t1\",\"name\":\"Bash\"\x7d\x7d\n"

/-- an `input_json_delta` whose accumulated payload is the malformed
`\x7bbad` -/
def anthLBad : String :=
  "data: \x7b\"type\":\"content_block_delta\",\"index\":0,\"delta\":\x7b\"type\":\"input_json_delta\",\"partial_json\":\"\x7bbad\"\x7d\x7d\n"

def anthL4 : String :=
  "data: \x7b\"type\":\"content_block_stop\",\"index\":0\x7d\n"

def anthL5 : String :=
  "data: \x7b\"type\":\"message_delta\",\"delta\":\x7b\"stop_reason\":\"tool_use\"\x7d,\"usage\":\x7b\"output_tokens\":5\x7d\x7d\n"

/-- an Anthropic stream whose single tool call accumulates malformed
argument JSON -/
def anthMalformedStream : String := anthL1 ++ anthL2 ++ anthLBad ++ anthL4 ++ anthL5

def oaiS1 : String :=
  "data: \x7b\"choices\":[\x7b\"delta\":\x7b\"content\":\"Hi\"\x7d\x7d]\x7d\n"

def oaiS2 : String :=
  "data: \x7b\"choices\":[\x7b\"delta\":\x7b\"tool_calls\":[\x7b\"index\":0,\"id\":\"c1\",\"function\":\x7b\"name\":\"Bash\",\"arguments\":\"\x7b\"\x7d\x7d]\x7d\x7d]\x7d\n"

def oaiS3 : String :=
  "data: \x7b\"choices\":[\x7b\"delta\":\x7b\"tool_calls\":[\x7b\"index\":0,\"function\":\x7b\"arguments\":\"\\\"a\\\": 2\x7d\"\x7d\x7d]\x7d,\"finish_reason\":\"tool_calls\"\x7d],\"usage\":\x7b\"prompt_tokens\":7,\"completion_tokens\":3\x7d\x7d\n"

/-- an OpenAI stream carrying one tool call whose arguments arrive
split over two events -/
def oaiToolStream : String := oaiS1 ++ oaiS2 ++ oaiS3

/-- the same stream delivered in one chunk / re-chunked mid-token -/
def c8chunksA : List (List Char) := [oaiToolStream.data]

def c8chunksB : List (List Char) :=
  [oaiS1.data, oaiS2.data.take 23, oaiS2.data.drop 23 ++ oaiS3.data]

/-- an OpenAI stream whose single tool call accumulates the malformed
argument payload `\x7bbad` -/
def oaiMalformedStream : String :=
  oaiS1
    ++ "data: \x7b\"choices\":[\x7b\"delta\":\x7b\"tool_calls\":[\x7b\"index\":0,\"id\":\"c1\",\"function\":\x7b\"name\":\"Bash\",\"arguments\":\"\x7bbad\"\x7d\x7d]\x7d\x7d]\x7d\n"

/-! concrete loop scenarios -/

/-- an assistant turn requesting one `Bash` tool call -/
def wRespTool : LLMStreamedResponse :=
  ⟨[LLMContentBlock.text "a", LLMContentBlock.toolUse "t1" "Bash"
      (Json.obj [("command", Json.str "ls")])], "tool_use", 3, 4⟩

/-- an assistant turn with plain text only -/
def wRespText : LLMStreamedResponse :=
  ⟨[LLMContentBlock.text "Hello ", LLMContentBlock.text "world"],
    "end_turn", 3, 4⟩

def wExecOk : String → Json → ToolOutcome :=
  fun _ _ => ToolOutcome.ok "a.txt\nb.txt"

def wSt0 : LoopState := ⟨[], ⟨0, 0, 0, 0, 0⟩⟩

def wCfg1 : AgentConfig := ⟨some 1, none, none, none, none, none⟩

def wCfg : AgentConfig := ⟨some 5, none, none, none, none, none⟩

def wCfgDeny : AgentConfig :=
  ⟨some 5, none, none, none, none, some (fun _ => false)⟩

/-- default config but with the documented 30 s tool timeout set -/
def c2cfg : AgentConfig := ⟨some 50, none, none, none, some 30000, none⟩

/-- tool turn first, then a text turn -/
def wProvSeq : Nat → ProviderOutcome :=
  fun i => if i = 0 then ProviderOutcome.ok wRespTool
    else ProviderOutcome.ok wRespText

def c1att503 : Nat → AttemptOutcome :=
  fun i => if i = 0 then AttemptOutcome.fail (some 503) "overloaded"
    else AttemptOutcome.ok wRespText

def c1att401 : Nat → AttemptOutcome :=
  fun _ => AttemptOutcome.fail (some 401) "unauthorized"

def wBatch0 : ToolBatch := ⟨[], ⟨0, 0, 0, 0, 0⟩, [], false⟩

def wToolUseBash : ToolUseBlock :=
  ⟨"t1", "Bash", Json.obj [("command", Json.str "rm -rf /")]⟩

def wAgents : List SpawnedAgent :=
  [⟨"1", "p1", none, PromiseState.fulfilled "r1"⟩,
   ⟨"2", "p2", some "d2", PromiseState.rejected "boom"⟩,
   ⟨"3", "p3", none, PromiseState.fulfilled "r3"⟩]

/-! ## Supporting lemmas -/

theorem splitNl_ne_nil (l : List Char) : splitNl l ≠ [] := by
  cases l with
  | nil => simp [splitNl]
  | cons c cs =>
    simp only [splitNl]
    split
    · simp
    · split <;> simp_all

theorem splitNl_of_not_mem {l : List Char} (h : '\n' ∉ l) :
    splitNl l = [l] := by
  induction l with
  | nil => rfl
  | cons c cs ih =>
    simp only [List.mem_cons, not_or] at h
    simp only [splitNl]
    rw [if_neg (fun hc => h.1 hc.symm)]
    rw [ih h.2]

theorem splitNl_append_of_not_mem {a : List Char} (h : '\n' ∉ a)
    (b : List Char) :
    splitNl (a ++ b) = (a ++ (splitNl b).headD []) :: (splitNl b).tail := by
  induction a with
  | nil =>
    simp only [List.nil_append]
    cases hb : splitNl b with
    | nil => exact absurd hb (splitNl_ne_nil b)
    | cons x xs => simp
  | cons c cs ih =>
    simp only [List.mem_cons, not_or] at h
    simp only [List.cons_append, splitNl, List.append_eq]
    rw [if_neg (fun hc => h.1 hc.symm), ih h.2]

theorem feedChar_buf_not_mem {σ : Type} (m : LineSink σ)
    (p : σ × List Char) (c : Char) (h : '\n' ∉ p.2) :
    '\n' ∉ (feedChar m p c).2 := by
  unfold feedChar
  split
  · simp
  · next hc =>
    simp only [List.mem_append, List.mem_singleton, not_or]
    exact ⟨h, fun he => hc he.symm⟩

theorem foldl_feedChar_buf_not_mem {σ : Type} (m : LineSink σ)
    (chunk : List Char) (p : σ × List Char) (h : '\n' ∉ p.2) :
    '\n' ∉ (chunk.foldl (feedChar m) p).2 := by
  induction chunk generalizing p with
  | nil => exact h
  | cons c cs ih =>
    simp only [List.foldl_cons]
    exact ih _ (feedChar_buf_not_mem m p c h)

/-- One chunk iteration agrees with folding the characters one by
one (provided the carried line has no newline, an invariant of the
loop). -/
theorem feedChunk_eq_foldl_feedChar {σ : Type} (m : LineSink σ)
    (chunk : List Char) (s : σ) (buf : List Char) (h : '\n' ∉ buf) :
    feedChunk m (s, buf) chunk = chunk.foldl (feedChar m) (s, buf) := by
  induction chunk generalizing s buf with
  | nil =>
    simp only [feedChunk, List.append_nil, List.foldl_nil]
    rw [splitNl_of_not_mem h]
    simp
  | cons c cs ih =>
    by_cases hc : c = '\n'
    · subst hc
      have hstep : feedChunk m (s, buf) ('\n' :: cs)
          = feedChunk m (m.step s buf, []) cs := by
        simp only [feedChunk]
        rw [splitNl_append_of_not_mem h]
        have hb : splitNl ('\n' :: cs) = [] :: splitNl cs := by
          simp [splitNl]
        rw [hb]
        cases hcs : splitNl cs with
        | nil => exact absurd hcs (splitNl_ne_nil cs)
        | cons x xs =>
          simp only [List.headD_cons, List.append_nil, List.tail_cons,
            List.nil_append]
          rw [hcs]
          simp [List.dropLast_cons_of_ne_nil, List.foldl_cons]
      rw [hstep, ih (m.step s buf) [] (by simp)]
      simp [feedChar]
    · have hstep : feedChunk m (s, buf) (c :: cs)
          = feedChunk m (s, buf ++ [c]) cs := by
        simp only [feedChunk]
        have : buf ++ c :: cs = (buf ++ [c]) ++ cs := by simp
        rw [this]
      have hbuf : '\n' ∉ buf ++ [c] := by
        simp only [List.mem_append, List.mem_singleton, not_or]
        exact ⟨h, fun he => hc he.symm⟩
      rw [hstep, ih s (buf ++ [c]) hbuf]
      simp [feedChar, hc, List.foldl_cons]

/-- The SSE read loop only depends on the concatenation of the
delivered chunks. -/
theorem foldl_feedChunk_eq_feedChar {σ : Type} (m : LineSink σ)
    (chunks : List (List Char)) (s : σ) (buf : List Char)
    (h : '\n' ∉ buf) :
    chunks.foldl (feedChunk m) (s, buf)
      = chunks.flatten.foldl (feedChar m) (s, buf) := by
  induction chunks generalizing s buf with
  | nil => rfl
  | cons ch rest ih =>
    simp only [List.foldl_cons, List.flatten_cons, List.foldl_append]
    rw [feedChunk_eq_foldl_feedChar m ch s buf h]
    have h2 := foldl_feedChar_buf_not_mem m ch (s, buf) h
    have hrec := ih (ch.foldl (feedChar m) (s, buf)).1
      (ch.foldl (feedChar m) (s, buf)).2 h2
    simpa using hrec

theorem runChunks_flatten {σ : Type} (m : LineSink σ) (s : σ)
    (chunks : List (List Char)) :
    runChunks m s chunks = runChunks m s [chunks.flatten] := by
  unfold runChunks
  rw [foldl_feedChunk_eq_feedChar m chunks s [] (by simp),
    List.foldl_cons, List.foldl_nil,
    feedChunk_eq_foldl_feedChar m _ s [] (by simp)]

theorem statsLE_refl (a : SpiritStats) : statsLE a a :=
  ⟨le_refl _, le_refl _, le_refl _, le_refl _⟩

theorem statsLE_trans {a b c : SpiritStats} (h1 : statsLE a b)
    (h2 : statsLE b c) : statsLE a c :=
  ⟨h1.1.trans h2.1, h1.2.1.trans h2.2.1, h1.2.2.1.trans h2.2.2.1,
    h1.2.2.2.trans h2.2.2.2⟩

theorem statsChain_head_weaken {a b : SpiritStats} {l : List SpiritStats}
    (hab : statsLE a b) (h : List.Chain' statsLE (b :: l)) :
    List.Chain' statsLE (a :: l) := by
  rw [List.chain'_cons'] at h ⊢
  exact ⟨fun y hy => statsLE_trans hab (h.1 y hy), h.2⟩

theorem statsChain_glue {x m : SpiritStats} {A B : List SpiritStats}
    (h1 : List.Chain' statsLE ((x :: A) ++ [m]))
    (h2 : List.Chain' statsLE (m :: B)) :
    List.Chain' statsLE ((x :: A) ++ B) := by
  rw [List.chain'_append] at h1 ⊢
  rw [List.chain'_cons'] at h2
  refine ⟨h1.1, h2.2, fun y hy z hz => ?_⟩
  have hym := h1.2.2 y hy m (by simp)
  exact statsLE_trans hym (h2.1 z hz)

theorem execOneTool_congr (cfg cfg' : AgentConfig)
    (h : cfg.onPermissionRequest = cfg'.onPermissionRequest)
    (exec : String → Json → ToolOutcome) (b : ToolBatch)
    (toolUse : ToolUseBlock) :
    execOneTool cfg exec b toolUse = execOneTool cfg' exec b toolUse := by
  unfold execOneTool
  rw [h]

theorem execToolUses_congr (cfg cfg' : AgentConfig)
    (h : cfg.onPermissionRequest = cfg'.onPermissionRequest)
    (exec : String → Json → ToolOutcome) (toolUses : List ToolUseBlock)
    (stats : SpiritStats) :
    execToolUses cfg exec toolUses stats
      = execToolUses cfg' exec toolUses stats := by
  unfold execToolUses
  rw [show execOneTool cfg exec = execOneTool cfg' exec from
    funext fun b => funext fun tu => execOneTool_congr cfg cfg' h exec b tu]

theorem runAux_congr (cfg cfg' : AgentConfig)
    (h : cfg.onPermissionRequest = cfg'.onPermissionRequest)
    (provider : Nat → ProviderOutcome) (exec : String → Json → ToolOutcome) :
    ∀ (fuel idx : Nat) (st : LoopState),
      runAux cfg provider exec fuel idx st
        = runAux cfg' provider exec fuel idx st := by
  intro fuel
  induction fuel with
  | zero => intro idx st; rfl
  | succ fuel ih =>
    intro idx st
    simp only [runAux]
    cases provider idx with
    | err m => rfl
    | ok streamed =>
      simp only [execToolUses_congr cfg cfg' h exec, ih]

/-- characterization of one dispatch step: the counter bump, the trace
extension, and the possible completions. -/
theorem execOneTool_shape (cfg : AgentConfig)
    (exec : String → Json → ToolOutcome) (b : ToolBatch) (tu : ToolUseBlock)
    (hb : b.hung = false) :
    ∃ preTrace : List TraceEvent,
      (execOneTool cfg exec b tu).stats
          = { b.stats with toolCalls := b.stats.toolCalls + 1 }
      ∧ (execOneTool cfg exec b tu).trace = b.trace ++ preTrace
      ∧ (emittedStats preTrace = []
          ∨ emittedStats preTrace
            = [{ b.stats with toolCalls := b.stats.toolCalls + 1 }])
      ∧ ((execOneTool cfg exec b tu).hung = true
            ∧ (execOneTool cfg exec b tu).results = b.results
        ∨ (execOneTool cfg exec b tu).hung = false
            ∧ ∃ (c : String) (ie : Bool),
              (execOneTool cfg exec b tu).results
                = b.results ++ [⟨tu.id, c, ie⟩]) := by
  unfold execOneTool
  simp only [hb, Bool.false_eq_true, if_false]
  cases hcp : cfg.onPermissionRequest with
  | none =>
    cases hex : exec tu.name tu.input with
    | ok r =>
      exact ⟨[TraceEvent.toolStart tu.name tu.input,
        TraceEvent.execInvoked tu.name tu.input, TraceEvent.toolEnd tu.name r,
        TraceEvent.statsEmitted
          { b.stats with toolCalls := b.stats.toolCalls + 1 }],
        by simp [hcp, hex, emittedStats]⟩
    | thrown m =>
      exact ⟨[TraceEvent.toolStart tu.name tu.input,
        TraceEvent.execInvoked tu.name tu.input, TraceEvent.errorNotified m,
        TraceEvent.statsEmitted
          { b.stats with toolCalls := b.stats.toolCalls + 1 }],
        by simp [hcp, hex, emittedStats]⟩
    | hang =>
      exact ⟨[TraceEvent.toolStart tu.name tu.input,
        TraceEvent.execInvoked tu.name tu.input],
        by simp [hcp, hex, emittedStats]⟩
  | some hook =>
    by_cases hmem : tu.name ∈ DANGEROUS_TOOLS
    · by_cases hdeny : hook ⟨tu.name, describeToolUse tu, tu.input⟩ = true
      · cases hex : exec tu.name tu.input with
        | ok r =>
          exact ⟨[TraceEvent.permissionAsked
              ⟨tu.name, describeToolUse tu, tu.input⟩,
            TraceEvent.toolStart tu.name tu.input,
            TraceEvent.execInvoked tu.name tu.input,
            TraceEvent.toolEnd tu.name r,
            TraceEvent.statsEmitted
              { b.stats with toolCalls := b.stats.toolCalls + 1 }],
            by simp [hcp, hmem, hdeny, hex, emittedStats]⟩
        | thrown m =>
          exact ⟨[TraceEvent.permissionAsked
              ⟨tu.name, describeToolUse tu, tu.input⟩,
            TraceEvent.toolStart tu.name tu.input,
            TraceEvent.execInvoked tu.name tu.input,
            TraceEvent.errorNotified m,
            TraceEvent.statsEmitted
              { b.stats with toolCalls := b.stats.toolCalls + 1 }],
            by simp [hcp, hmem, hdeny, hex, emittedStats]⟩
        | hang =>
          exact ⟨[TraceEvent.permissionAsked
              ⟨tu.name, describeToolUse tu, tu.input⟩,
            TraceEvent.toolStart tu.name tu.input,
            TraceEvent.execInvoked tu.name tu.input],
            by simp [hcp, hmem, hdeny, hex, emittedStats]⟩
      · exact ⟨[TraceEvent.permissionAsked
            ⟨tu.name, describeToolUse tu, tu.input⟩],
          by simp [hcp, hmem, hdeny, emittedStats]⟩
    · cases hex : exec tu.name tu.input with
      | ok r =>
        exact ⟨[TraceEvent.toolStart tu.name tu.input,
          TraceEvent.execInvoked tu.name tu.input, TraceEvent.toolEnd tu.name r,
          TraceEvent.statsEmitted
            { b.stats with toolCalls := b.stats.toolCalls + 1 }],
          by simp [hcp, hmem, hex, emittedStats]⟩
      | thrown m =>
        exact ⟨[TraceEvent.toolStart tu.name tu.input,
          TraceEvent.execInvoked tu.name tu.input, TraceEvent.errorNotified m,
          TraceEvent.statsEmitted
            { b.stats with toolCalls := b.stats.toolCalls + 1 }],
          by simp [hcp, hmem, hex, emittedStats]⟩
      | hang =>
        exact ⟨[TraceEvent.toolStart tu.name tu.input,
          TraceEvent.execInvoked tu.name tu.input],
          by simp [hcp, hmem, hex, emittedStats]⟩

theorem foldl_execOneTool_hung_persist (cfg : AgentConfig)
    (exec : String → Json → ToolOutcome) (tus : List ToolUseBlock)
    (b : ToolBatch) (hb : b.hung = true) :
    tus.foldl (execOneTool cfg exec) b = b := by
  induction tus with
  | nil => rfl
  | cons tu rest ih =>
    have hstep : execOneTool cfg exec b tu = b := by
      unfold execOneTool
      simp [hb]
    rw [List.foldl_cons, hstep, ih]

/-- a completed (non-hung) batch appends exactly one tool result per
tool use, in order, with matching ids. -/
theorem foldl_execOneTool_results (cfg : AgentConfig)
    (exec : String → Json → ToolOutcome) (tus : List ToolUseBlock) :
    ∀ (b : ToolBatch), b.hung = false →
      (tus.foldl (execOneTool cfg exec) b).hung = false →
      (tus.foldl (execOneTool cfg exec) b).results.map
          (fun r => r.tool_use_id)
        = b.results.map (fun r => r.tool_use_id)
            ++ tus.map (fun t => t.id) := by
  induction tus with
  | nil => intro b hb hfin; simp
  | cons tu rest ih =>
    intro b hb hfin
    rw [List.foldl_cons] at hfin ⊢
    obtain ⟨pre, hstats, htrace, hemit, hcase⟩ :=
      execOneTool_shape cfg exec b tu hb
    rcases hcase with ⟨hhung, _⟩ | ⟨hhung, c, ie, hres⟩
    · rw [foldl_execOneTool_hung_persist cfg exec rest _ hhung] at hfin
      rw [hfin] at hhung
      cases hhung
    · rw [ih _ hhung hfin, hres]
      simp

theorem statsFieldsEq_trans {a b c : SpiritStats} (h1 : statsFieldsEq a b)
    (h2 : statsFieldsEq b c) : statsFieldsEq a c :=
  ⟨h1.1.trans h2.1, h1.2.1.trans h2.2.1, h1.2.2.1.trans h2.2.2.1,
    h1.2.2.2.trans h2.2.2.2⟩

/-- a batch only bumps `toolCalls`: emitted snapshots grow
monotonically from the entry stats to the batch's final stats, and
every one of them (and the final stats) agrees with the entry stats on
all other fields. -/
theorem foldl_execOneTool_chain (cfg : AgentConfig)
    (exec : String → Json → ToolOutcome) (tus : List ToolUseBlock) :
    ∀ (b : ToolBatch), b.hung = false →
      ∃ E : List SpiritStats,
        emittedStats (tus.foldl (execOneTool cfg exec) b).trace
            = emittedStats b.trace ++ E
        ∧ List.Chain' statsLE (b.stats :: (E
            ++ [(tus.foldl (execOneTool cfg exec) b).stats]))
        ∧ (∀ s ∈ E ++ [(tus.foldl (execOneTool cfg exec) b).stats],
            statsFieldsEq s b.stats) := by
  induction tus with
  | nil =>
    intro b hb
    refine ⟨[], by simp, ?_, ?_⟩
    · simp [List.chain'_pair, statsLE_refl]
    · intro s hs
      simp at hs
      simp [hs, statsFieldsEq]
  | cons tu rest ih =>
    intro b hb
    rw [List.foldl_cons]
    obtain ⟨pre, hstats, htrace, hemit, hcase⟩ :=
      execOneTool_shape cfg exec b tu hb
    have hble : statsLE b.stats (execOneTool cfg exec b tu).stats := by
      rw [hstats]
      exact ⟨le_refl _, le_refl _, le_refl _, Nat.le_succ _⟩
    have hbfe : statsFieldsEq (execOneTool cfg exec b tu).stats b.stats := by
      rw [hstats]
      exact ⟨rfl, rfl, rfl, rfl⟩
    have hemit1 : emittedStats (execOneTool cfg exec b tu).trace
        = emittedStats b.trace ++ emittedStats pre := by
      rw [htrace]
      simp [emittedStats, List.filterMap_append]
    cases hhung : (execOneTool cfg exec b tu).hung with
    | true =>
      rw [foldl_execOneTool_hung_persist cfg exec rest _ hhung]
      refine ⟨emittedStats pre, hemit1, ?_, ?_⟩
      · rcases hemit with he | he <;> rw [he]
        · simp only [List.nil_append]
          exact List.chain'_pair.mpr hble
        · rw [← hstats]
          exact List.chain'_cons.mpr ⟨hble,
            List.chain'_pair.mpr (statsLE_refl _)⟩
      · intro s hs
        rcases hemit with he | he <;> rw [he] at hs
        · simp at hs
          rw [hs]
          exact hbfe
        · rw [← hstats] at hs
          simp at hs
          rw [hs]
          exact hbfe
    | false =>
      obtain ⟨E, hE, hchain, hfields⟩ := ih _ hhung
      refine ⟨emittedStats pre ++ E,
        by rw [hE, hemit1, List.append_assoc], ?_, ?_⟩
      · rcases hemit with he | he <;> rw [he]
        · simp only [List.nil_append]
          exact statsChain_head_weaken hble hchain
        · rw [← hstats]
          have h2 := List.chain'_cons.mpr ⟨hble, hchain⟩
          simpa using h2
      · intro s hs
        simp only [List.append_assoc, List.mem_append,
          List.mem_singleton] at hs
        rcases hs with hpre | hrest
        · rcases hemit with he | he <;> rw [he] at hpre
          · cases hpre
          · simp at hpre
            rw [hpre]
            exact ⟨rfl, rfl, rfl, rfl⟩
        · have hmem : s ∈ E ++ [(rest.foldl (execOneTool cfg exec)
              (execOneTool cfg exec b tu)).stats] := by
            simpa [List.mem_append] using hrest
          exact statsFieldsEq_trans (hfields s hmem) hbfe

theorem execOneTool_not_hung (cfg : AgentConfig)
    (exec : String → Json → ToolOutcome)
    (hex : ∀ n j, exec n j ≠ ToolOutcome.hang)
    (b : ToolBatch) (tu : ToolUseBlock) (hb : b.hung = false) :
    (execOneTool cfg exec b tu).hung = false := by
  unfold execOneTool
  simp only [hb, Bool.false_eq_true, if_false]
  cases hcp : cfg.onPermissionRequest with
  | none =>
    cases hex2 : exec tu.name tu.input with
    | ok r => simp [hcp, hex2]
    | thrown m => simp [hcp, hex2]
    | hang => exact absurd hex2 (hex tu.name tu.input)
  | some hook =>
    by_cases hmem : tu.name ∈ DANGEROUS_TOOLS
    · by_cases hdeny : hook ⟨tu.name, describeToolUse tu, tu.input⟩ = true
      · cases hex2 : exec tu.name tu.input with
        | ok r => simp [hcp, hmem, hdeny, hex2]
        | thrown m => simp [hcp, hmem, hdeny, hex2]
        | hang => exact absurd hex2 (hex tu.name tu.input)
      · simp [hcp, hmem, hdeny]
    · cases hex2 : exec tu.name tu.input with
      | ok r => simp [hcp, hmem, hex2]
      | thrown m => simp [hcp, hmem, hex2]
      | hang => exact absurd hex2 (hex tu.name tu.input)

theorem execToolUses_not_hung (cfg : AgentConfig)
    (exec : String → Json → ToolOutcome)
    (hex : ∀ n j, exec n j ≠ ToolOutcome.hang)
    (toolUses : List ToolUseBlock) (stats : SpiritStats) :
    (execToolUses cfg exec toolUses stats).hung = false := by
  unfold execToolUses
  suffices h : ∀ (b : ToolBatch), b.hung = false →
      (toolUses.foldl (execOneTool cfg exec) b).hung = false from
    h ⟨[], stats, [], false⟩ rfl
  induction toolUses with
  | nil => intro b hb; exact hb
  | cons tu rest ih =>
    intro b hb
    exact ih _ (execOneTool_not_hung cfg exec hex b tu hb)

theorem execToolUses_fields (cfg : AgentConfig)
    (exec : String → Json → ToolOutcome)
    (toolUses : List ToolUseBlock) (stats : SpiritStats) :
    statsFieldsEq (execToolUses cfg exec toolUses stats).stats stats := by
  unfold execToolUses
  obtain ⟨E, _, _, hfields⟩ :=
    foldl_execOneTool_chain cfg exec toolUses ⟨[], stats, [], false⟩ rfl
  exact hfields _ (by simp)

theorem runAux_sentinel (cfg : AgentConfig) (provider : Nat → ProviderOutcome)
    (exec : String → Json → ToolOutcome)
    (hprov : ∀ i, ∃ r, provider i = ProviderOutcome.ok r
      ∧ (toolUsesOf r.content).isEmpty = false)
    (hex : ∀ n j, exec n j ≠ ToolOutcome.hang) :
    ∀ (fuel idx : Nat) (st : LoopState),
      (runAux cfg provider exec fuel idx st).1
          = RunOutcome.returned "[Spirit: max turns reached]"
      ∧ (runAux cfg provider exec fuel idx st).2.1.stats.turns
          = st.stats.turns + fuel := by
  intro fuel
  induction fuel with
  | zero => intro idx st; exact ⟨rfl, rfl⟩
  | succ fuel ih =>
    intro idx st
    obtain ⟨r, hr, hrt⟩ := hprov idx
    simp only [runAux, hr, hrt]
    have hhung := execToolUses_not_hung cfg exec hex (toolUsesOf r.content)
    simp only [hhung, Bool.false_eq_true, if_false]
    refine ⟨(ih (idx + 1) _).1, ?_⟩
    rw [(ih (idx + 1) _).2]
    have hturn := (execToolUses_fields cfg exec (toolUsesOf r.content)
      { inputTokens := st.stats.inputTokens + r.inputTokens,
        outputTokens := st.stats.outputTokens + r.outputTokens,
        totalTokens := st.stats.inputTokens + r.inputTokens
          + (st.stats.outputTokens + r.outputTokens),
        turns := st.stats.turns + 1,
        toolCalls := st.stats.toolCalls }).2.2.2
    simp only [hturn]
    omega

/-- a tool-free provider response at call `k` (all earlier calls
returning tool-using responses, no executor hanging) settles the loop
with that response's joined text on turn `k + 1`. -/
theorem runAux_text_at (cfg : AgentConfig) (provider : Nat → ProviderOutcome)
    (exec : String → Json → ToolOutcome)
    (hex : ∀ n j, exec n j ≠ ToolOutcome.hang) :
    ∀ (k fuel idx : Nat) (st : LoopState) (r : LLMStreamedResponse),
      k < fuel →
      (∀ j < k, ∃ rj, provider (idx + j) = ProviderOutcome.ok rj
        ∧ (toolUsesOf rj.content).isEmpty = false) →
      provider (idx + k) = ProviderOutcome.ok r →
      toolUsesOf r.content = [] →
      (runAux cfg provider exec fuel idx st).1
        = RunOutcome.returned (String.join (textPartsOf r.content))
      ∧ (runAux cfg provider exec fuel idx st).2.1.stats.turns
          = st.stats.turns + (k + 1) := by
  intro k
  induction k with
  | zero =>
    intro fuel idx st r hk htools hp ht
    obtain ⟨f, rfl⟩ : ∃ f, fuel = f + 1 := ⟨fuel - 1, by omega⟩
    rw [Nat.add_zero] at hp
    simp only [runAux, hp, ht]
    simp
  | succ k ih =>
    intro fuel idx st r hk htools hp ht
    obtain ⟨f, rfl⟩ : ∃ f, fuel = f + 1 := ⟨fuel - 1, by omega⟩
    obtain ⟨r0, hp0, ht0⟩ := htools 0 (Nat.succ_pos k)
    rw [Nat.add_zero] at hp0
    simp only [runAux, hp0, ht0]
    have hhung := execToolUses_not_hung cfg exec hex (toolUsesOf r0.content)
    simp only [hhung, Bool.false_eq_true, if_false]
    have htools2 : ∀ j < k, ∃ rj, provider (idx + 1 + j) = ProviderOutcome.ok rj
        ∧ (toolUsesOf rj.content).isEmpty = false := by
      intro j hj
      have h := htools (j + 1) (by omega)
      rwa [show idx + (j + 1) = idx + 1 + j by omega] at h
    have hp2 : provider (idx + 1 + k) = ProviderOutcome.ok r := by
      rwa [show idx + 1 + k = idx + (k + 1) by omega]
    refine ⟨(ih f (idx + 1) _ r (by omega) htools2 hp2 ht).1, ?_⟩
    rw [(ih f (idx + 1) _ r (by omega) htools2 hp2 ht).2]
    have hturn := (execToolUses_fields cfg exec (toolUsesOf r0.content)
      { inputTokens := st.stats.inputTokens + r0.inputTokens,
        outputTokens := st.stats.outputTokens + r0.outputTokens,
        totalTokens := st.stats.inputTokens + r0.inputTokens
          + (st.stats.outputTokens + r0.outputTokens),
        turns := st.stats.turns + 1,
        toolCalls := st.stats.toolCalls }).2.2.2
    simp only [hturn]
    omega

/-- the first provider response of a `run` settles it when it carries
no tool uses -/
theorem run_first_no_tools (cfg : AgentConfig)
    (provider : Nat → ProviderOutcome) (exec : String → Json → ToolOutcome)
    (st : LoopState) (u : String) (r : LLMStreamedResponse)
    (hfuel : st.stats.turns < cfg.maxTurns.getD DEFAULT_MAX_TURNS)
    (hp : provider 0 = ProviderOutcome.ok r)
    (ht : toolUsesOf r.content = []) :
    (AgentLoop.run cfg provider exec st u).1
      = RunOutcome.returned (String.join (textPartsOf r.content)) := by
  unfold AgentLoop.run
  obtain ⟨f, hf⟩ : ∃ f, cfg.maxTurns.getD DEFAULT_MAX_TURNS
      - st.stats.turns = f + 1 := by
    refine ⟨cfg.maxTurns.getD DEFAULT_MAX_TURNS - st.stats.turns - 1, ?_⟩
    omega
  simp only [hf, runAux, hp, ht]
  simp

/-- a run whose first provider call rejects, rejects with that
failure -/
theorem run_first_err (cfg : AgentConfig)
    (provider : Nat → ProviderOutcome) (exec : String → Json → ToolOutcome)
    (st : LoopState) (u : String) (m : String)
    (hfuel : st.stats.turns < cfg.maxTurns.getD DEFAULT_MAX_TURNS)
    (hp : provider 0 = ProviderOutcome.err m) :
    (AgentLoop.run cfg provider exec st u).1 = RunOutcome.threw m := by
  unfold AgentLoop.run
  obtain ⟨f, hf⟩ : ∃ f, cfg.maxTurns.getD DEFAULT_MAX_TURNS
      - st.stats.turns = f + 1 := by
    refine ⟨cfg.maxTurns.getD DEFAULT_MAX_TURNS - st.stats.turns - 1, ?_⟩
    omega
  simp only [hf, runAux, hp]

theorem withRetryGo_spec (attempt : Nat → AttemptOutcome) :
    ∀ (retries delay idx : Nat) (delays : List Nat),
      (withRetryGo attempt retries delay idx delays).attemptsUsed
          ≤ idx + retries + 1
      ∧ ∃ k ≤ retries, (withRetryGo attempt retries delay idx delays).delays
          = delays ++ (List.range k).map (fun i => delay * 2 ^ i) := by
  intro retries
  induction retries with
  | zero =>
    intro delay idx delays
    cases hat : attempt idx with
    | ok r => exact ⟨by simp [withRetryGo, hat], 0, le_refl 0,
        by simp [withRetryGo, hat]⟩
    | fail status m => exact ⟨by simp [withRetryGo, hat], 0, le_refl 0,
        by simp [withRetryGo, hat]⟩
  | succ n ih =>
    intro delay idx delays
    cases hat : attempt idx with
    | ok r => exact ⟨by simp [withRetryGo, hat]; try omega, 0, Nat.zero_le _,
        by simp [withRetryGo, hat]⟩
    | fail status m =>
      by_cases hr : isRetryable status = true
      · have hgo : withRetryGo attempt (n + 1) delay idx delays
            = withRetryGo attempt n (delay * 2) (idx + 1)
                (delays ++ [delay]) := by
          conv_lhs => rw [withRetryGo]
          rw [hat]
          simp [hr]
        obtain ⟨hused, k, hk, hdel⟩ := ih (delay * 2) (idx + 1)
          (delays ++ [delay])
        refine ⟨by rw [hgo]; omega, k + 1, by omega, ?_⟩
        rw [hgo, hdel, List.range_succ_eq_map, List.map_cons, List.map_map]
        have hmap : (List.range k).map ((fun i => delay * 2 ^ i) ∘ Nat.succ)
            = (List.range k).map (fun i => delay * 2 * 2 ^ i) := by
          apply List.map_congr_left
          intro i hi
          simp [Function.comp, pow_succ]
          ring
        rw [hmap]
        simp
      · exact ⟨by simp [withRetryGo, hat, hr]; try omega, 0, Nat.zero_le _,
          by simp [withRetryGo, hat, hr]⟩

/-- helper for C9: with no run still pending, `waitAll` fulfills with
one settle-chain result per agent, in order. -/
theorem waitAll_settled (agents : List SpawnedAgent)
    (h : ∀ a ∈ agents, a.runState ≠ PromiseState.pending) :
    SubAgentManager.waitAll agents
      = PromiseState.fulfilled (agents.map runSettled) := by
  have hnp : (agents.map SubAgentManager.agentPromise).any
      SubAgentManager.isPending = false := by
    rw [List.any_eq_false]
    intro p hp
    obtain ⟨a, ha, rfl⟩ := List.mem_map.mp hp
    have hne := h a ha
    cases hr : a.runState with
    | pending => exact absurd hr hne
    | fulfilled r =>
      simp [SubAgentManager.agentPromise, hr, SubAgentManager.isPending]
    | rejected m =>
      simp [SubAgentManager.agentPromise, hr, SubAgentManager.isPending]
  have hlist : ∀ (l : List SpawnedAgent),
      (∀ a ∈ l, a.runState ≠ PromiseState.pending) →
      List.filterMap SubAgentManager.toSettled
          (l.map SubAgentManager.agentPromise)
        = l.map (fun a => SettledResult.fulfilled (runSettled a)) := by
    intro l
    induction l with
    | nil => intro hnil; rfl
    | cons a rest ih =>
      intro hl
      have ha := hl a (List.mem_cons_self a rest)
      have hrest := fun x hx => hl x (List.mem_cons_of_mem a hx)
      cases hr : a.runState with
      | pending => exact absurd hr ha
      | fulfilled r =>
        simp only [List.map_cons, SubAgentManager.agentPromise, hr,
          List.filterMap_cons, SubAgentManager.toSettled]
        congr 1
        · simp [runSettled, hr]
        · exact ih hrest
      | rejected m =>
        simp only [List.map_cons, SubAgentManager.agentPromise, hr,
          List.filterMap_cons, SubAgentManager.toSettled]
        congr 1
        · simp [runSettled, hr]
        · exact ih hrest
  unfold SubAgentManager.waitAll SubAgentManager.allSettled
  rw [hnp]
  simp only [Bool.false_eq_true, if_false, hlist agents h, List.map_map]
  rfl

/-! ## Claims -/

/-- C1 (spec-modelled: the retry wrapper lives in
`ApiClient.createMessageStream`, which is absent from `src/`): every
provider call of `AgentLoop.run` goes through the retry wrapper —
a failure with a status outside \x7b429, 500, 502, 503, 529\x7d (or with no
status) is never retried and ends the run at once; a 503 followed by a
success makes the run succeed after exactly one retry with a 1000 ms
backoff; the wrapper never makes more than 4 attempts, with delays
1000, 2000, 4000. -/
theorem claim_C1 :
    (∀ (attempt : Nat → AttemptOutcome) (status : Option Nat) (m : String),
      attempt 0 = AttemptOutcome.fail status m → isRetryable status = false →
      withRetry attempt = ⟨ProviderOutcome.err m, [], 1⟩)
    ∧ (∀ (attempt : Nat → AttemptOutcome) (m : String)
        (r : LLMStreamedResponse),
      attempt 0 = AttemptOutcome.fail (some 503) m →
      attempt 1 = AttemptOutcome.ok r →
      withRetry attempt = ⟨ProviderOutcome.ok r, [1000], 2⟩)
    ∧ (∀ (cfg : AgentConfig) (attempts : Nat → Nat → AttemptOutcome)
        (exec : String → Json → ToolOutcome) (st : LoopState) (u m : String)
        (r : LLMStreamedResponse),
      st.stats.turns < cfg.maxTurns.getD DEFAULT_MAX_TURNS →
      attempts 0 0 = AttemptOutcome.fail (some 503) m →
      attempts 0 1 = AttemptOutcome.ok r →
      toolUsesOf r.content = [] →
      (runWithRetry cfg attempts exec st u).1
        = RunOutcome.returned (String.join (textPartsOf r.content)))
    ∧ (∀ (cfg : AgentConfig) (attempts : Nat → Nat → AttemptOutcome)
        (exec : String → Json → ToolOutcome) (st : LoopState) (u m : String),
      st.stats.turns < cfg.maxTurns.getD DEFAULT_MAX_TURNS →
      attempts 0 0 = AttemptOutcome.fail (some 401) m →
      (runWithRetry cfg attempts exec st u).1 = RunOutcome.threw m)
    ∧ (∀ attempt : Nat → AttemptOutcome,
      (withRetry attempt).attemptsUsed ≤ 4
      ∧ ∃ k ≤ 3, (withRetry attempt).delays
          = (List.range k).map (fun i => 1000 * 2 ^ i)) := by
  have h503 : isRetryable (some 503) = true := by decide
  refine ⟨?_, ?_, ?_, ?_, ?_⟩
  · intro attempt status m h0 hnr
    simp [withRetry, withRetryGo, h0, hnr]
  · intro attempt m r h0 h1
    conv_lhs => rw [withRetry, withRetryGo]
    rw [h0]
    simp only [h503, if_true]
    rw [withRetryGo, h1]
    rfl
  · intro cfg attempts exec st u m r hfuel h0 h1 ht
    have hw : withRetry (attempts 0) = ⟨ProviderOutcome.ok r, [1000], 2⟩ := by
      conv_lhs => rw [withRetry, withRetryGo]
      rw [h0]
      simp only [h503, if_true]
      rw [withRetryGo, h1]
      rfl
    exact run_first_no_tools cfg _ exec st u r hfuel (by rw [hw]) ht
  · intro cfg attempts exec st u m hfuel h0
    have hw : withRetry (attempts 0) = ⟨ProviderOutcome.err m, [], 1⟩ := by
      simp [withRetry, withRetryGo, h0, isRetryable, retryableStatuses]
    exact run_first_err cfg _ exec st u m hfuel (by rw [hw])
  · intro attempt
    obtain ⟨hused, k, hk, hdel⟩ := withRetryGo_spec attempt 3 1000 0 []
    exact ⟨hused, k, hk, by simpa using hdel⟩

/-- C1 witness: concrete attempt sequences — a 401 fails immediately
with no retry; a 503 then a success succeeds after one 1000 ms retry,
both at the wrapper and through `run`. -/
theorem claim_C1_witness :
    c1att401 0 = AttemptOutcome.fail (some 401) "unauthorized"
    ∧ withRetry c1att401 = ⟨ProviderOutcome.err "unauthorized", [], 1⟩
    ∧ withRetry c1att503 = ⟨ProviderOutcome.ok wRespText, [1000], 2⟩
    ∧ (runWithRetry wCfg (fun _ => c1att503) wExecOk wSt0 "hi").1
        = RunOutcome.returned (String.join (textPartsOf wRespText.content))
    ∧ (runWithRetry wCfg (fun _ => c1att401) wExecOk wSt0 "hi").1
        = RunOutcome.threw "unauthorized" := by
  refine ⟨rfl,
    claim_C1.1 c1att401 (some 401) "unauthorized" rfl (by decide),
    claim_C1.2.1 c1att503 "overloaded" wRespText rfl rfl,
    claim_C1.2.2.1 wCfg (fun _ => c1att503) wExecOk wSt0 "hi" "overloaded"
      wRespText (by decide) rfl rfl rfl,
    claim_C1.2.2.2.1 wCfg (fun _ => c1att401) wExecOk wSt0 "hi"
      "unauthorized" (by decide) rfl⟩

/-- C2 (code bug): `AgentConfig.toolTimeoutMs` is declared with a
documented 30 s default, but `AgentLoop.run` never reads it and does
not race tool execution against any timer: the run result is invariant
under changing `toolTimeoutMs`, and a tool executor that never settles
leaves the run unsettled — no timeout-flavoured error `ToolResult` is
ever appended and the loop does not proceed to the next turn. -/
theorem claim_C2 :
    (∀ (cfg : AgentConfig) (t1 t2 : Option Nat)
        (provider : Nat → ProviderOutcome)
        (exec : String → Json → ToolOutcome) (st : LoopState) (u : String),
      AgentLoop.run { cfg with toolTimeoutMs := t1 } provider exec st u
        = AgentLoop.run { cfg with toolTimeoutMs := t2 } provider exec st u)
    ∧ (AgentLoop.run c2cfg (fun _ => ProviderOutcome.ok wRespTool)
        (fun _ _ => ToolOutcome.hang) wSt0 "list files").1 = RunOutcome.hung
    ∧ (AgentLoop.run c2cfg (fun _ => ProviderOutcome.ok wRespTool)
        (fun _ _ => ToolOutcome.hang) wSt0 "list files").2.1.messages
      = [⟨Role.user, MsgContent.ofString "list files"⟩,
         ⟨Role.assistant, MsgContent.blocks wRespTool.content⟩] := by
  refine ⟨?_, rfl, rfl⟩
  intro cfg t1 t2 provider exec st u
  unfold AgentLoop.run
  exact runAux_congr { cfg with toolTimeoutMs := t1 }
    { cfg with toolTimeoutMs := t2 } rfl provider exec _ 0 _

/-- C4: a tool-use request for a gated tool (`Bash`, `Write`, `Edit`)
with a configured permission hook that denies never reaches the
executor — the dispatch step returns exactly the denial record, whose
appended `ToolResult` is error-flagged with content
"Permission denied by user.", independent of the executor; a request
outside the gated set, or with no hook configured, proceeds straight to
execution (trace shows `toolStart` then the executor invocation, and no
permission event is ever recorded). -/
theorem claim_C4 :
    (∀ (cfg : AgentConfig) (hook : PermissionRequest → Bool)
        (exec : String → Json → ToolOutcome) (b : ToolBatch)
        (toolUse : ToolUseBlock),
      b.hung = false →
      cfg.onPermissionRequest = some hook →
      toolUse.name ∈ DANGEROUS_TOOLS →
      hook ⟨toolUse.name, describeToolUse toolUse, toolUse.input⟩ = false →
      execOneTool cfg exec b toolUse
        = ⟨b.results ++ [⟨toolUse.id, "Permission denied by user.", true⟩],
          { b.stats with toolCalls := b.stats.toolCalls + 1 },
          b.trace ++ [TraceEvent.permissionAsked
            ⟨toolUse.name, describeToolUse toolUse, toolUse.input⟩],
          false⟩)
    ∧ (∀ (cfg : AgentConfig) (exec : String → Json → ToolOutcome)
        (b : ToolBatch) (toolUse : ToolUseBlock),
      b.hung = false →
      (toolUse.name ∉ DANGEROUS_TOOLS ∨ cfg.onPermissionRequest = none) →
      (execOneTool cfg exec b toolUse).trace.take (b.trace.length + 2)
          = b.trace ++ [TraceEvent.toolStart toolUse.name toolUse.input,
              TraceEvent.execInvoked toolUse.name toolUse.input]
      ∧ (execOneTool cfg exec b toolUse).trace.countP isPermissionEvent
          = b.trace.countP isPermissionEvent) := by
  constructor
  · intro cfg hook exec b toolUse hb hcfg hmem hdeny
    simp [execOneTool, hb, hcfg, hmem, hdeny]
  · intro cfg exec b toolUse hb hfree
    have hgate : (decide (toolUse.name ∈ DANGEROUS_TOOLS)
        && cfg.onPermissionRequest.isSome) = false := by
      rcases hfree with hf | hf
      · simp [hf]
      · simp [hf]
    have hden : (match cfg.onPermissionRequest with
        | some hook =>
          if toolUse.name ∈ DANGEROUS_TOOLS then
            ! hook ⟨toolUse.name, describeToolUse toolUse, toolUse.input⟩
          else false
        | none => false) = false := by
      rcases hfree with hf | hf
      · cases hcp : cfg.onPermissionRequest with
        | none => simp
        | some hook => simp [hf]
      · simp [hf]
    cases hex : exec toolUse.name toolUse.input with
    | ok r =>
      constructor <;> simp [execOneTool, hb, hgate, hden, hex,
        List.take_append, isPermissionEvent]
    | thrown m =>
      constructor <;> simp [execOneTool, hb, hgate, hden, hex,
        List.take_append, isPermissionEvent]
    | hang =>
      constructor <;> simp [execOneTool, hb, hgate, hden, hex,
        List.take_append, isPermissionEvent]

/-- C4 witness: a denied `Bash` call yields exactly the denial record;
an ungated `Read` call goes straight to execution with no permission
event. -/
theorem claim_C4_witness :
    (wBatch0.hung = false ∧ wCfgDeny.onPermissionRequest.isSome = true
      ∧ wToolUseBash.name ∈ DANGEROUS_TOOLS)
    ∧ execOneTool wCfgDeny wExecOk wBatch0 wToolUseBash
        = ⟨[⟨"t1", "Permission denied by user.", true⟩],
          ⟨0, 0, 0, 0, 1⟩,
          [TraceEvent.permissionAsked ⟨"Bash", describeToolUse wToolUseBash,
            wToolUseBash.input⟩],
          false⟩
    ∧ List.countP isPermissionEvent
        (execOneTool wCfgDeny wExecOk wBatch0
          ⟨"t2", "Read", Json.obj []⟩).trace = 0 := by
  refine ⟨⟨rfl, rfl, by decide⟩, ?_, ?_⟩
  · have h := claim_C4.1 wCfgDeny (fun _ => false) wExecOk wBatch0
      wToolUseBash rfl rfl (by decide) rfl
    simpa [wBatch0] using h
  · have h := (claim_C4.2 wCfgDeny wExecOk wBatch0 ⟨"t2", "Read", Json.obj []⟩
      rfl (Or.inl (by decide))).2
    simpa [wBatch0] using h

/-- C7: `run` returns the concatenated assistant text as soon as a
provider response carries no tool uses — whether on the first call or
on any later turn `k` reached after `k` tool-using turns (no executor
hanging); if every response requests a tool (and no executor hangs),
the loop runs its full turn budget (`maxTurns`, default 50) and
returns the fixed truncation sentinel — with `maxTurns = 1`, after
exactly 1 turn. -/
theorem claim_C7 :
    DEFAULT_MAX_TURNS = 50
    ∧ (∀ (cfg : AgentConfig) (provider : Nat → ProviderOutcome)
        (exec : String → Json → ToolOutcome) (st : LoopState) (u : String)
        (r : LLMStreamedResponse),
      st.stats.turns < cfg.maxTurns.getD DEFAULT_MAX_TURNS →
      provider 0 = ProviderOutcome.ok r →
      toolUsesOf r.content = [] →
      (AgentLoop.run cfg provider exec st u).1
        = RunOutcome.returned (String.join (textPartsOf r.content)))
    ∧ (∀ (cfg : AgentConfig) (provider : Nat → ProviderOutcome)
        (exec : String → Json → ToolOutcome) (st : LoopState) (u : String)
        (k : Nat) (r : LLMStreamedResponse),
      st.stats.turns + k < cfg.maxTurns.getD DEFAULT_MAX_TURNS →
      (∀ n j, exec n j ≠ ToolOutcome.hang) →
      (∀ j < k, ∃ rj, provider j = ProviderOutcome.ok rj
        ∧ (toolUsesOf rj.content).isEmpty = false) →
      provider k = ProviderOutcome.ok r →
      toolUsesOf r.content = [] →
      (AgentLoop.run cfg provider exec st u).1
          = RunOutcome.returned (String.join (textPartsOf r.content))
      ∧ (AgentLoop.run cfg provider exec st u).2.1.stats.turns
          = st.stats.turns + (k + 1))
    ∧ (∀ (cfg : AgentConfig) (provider : Nat → ProviderOutcome)
        (exec : String → Json → ToolOutcome) (st : LoopState) (u : String),
      (∀ i, ∃ r, provider i = ProviderOutcome.ok r
        ∧ (toolUsesOf r.content).isEmpty = false) →
      (∀ n j, exec n j ≠ ToolOutcome.hang) →
      st.stats.turns = 0 →
      (AgentLoop.run cfg provider exec st u).1
          = RunOutcome.returned "[Spirit: max turns reached]"
      ∧ (AgentLoop.run cfg provider exec st u).2.1.stats.turns
          = cfg.maxTurns.getD DEFAULT_MAX_TURNS) := by
  refine ⟨rfl, run_first_no_tools, ?_, ?_⟩
  · intro cfg provider exec st u k r hbud hex htools hp ht
    unfold AgentLoop.run
    have htools0 : ∀ j < k, ∃ rj, provider (0 + j) = ProviderOutcome.ok rj
        ∧ (toolUsesOf rj.content).isEmpty = false := by
      intro j hj
      simpa [Nat.zero_add] using htools j hj
    have hp0 : provider (0 + k) = ProviderOutcome.ok r := by simpa using hp
    exact runAux_text_at cfg provider exec hex k
      (cfg.maxTurns.getD DEFAULT_MAX_TURNS - st.stats.turns) 0
      { st with messages := st.messages
          ++ [⟨Role.user, MsgContent.ofString u⟩] }
      r (by omega) htools0 hp0 ht
  · intro cfg provider exec st u hprov hex hturns
    unfold AgentLoop.run
    obtain ⟨hret, hcount⟩ := runAux_sentinel cfg provider exec hprov hex
      (cfg.maxTurns.getD DEFAULT_MAX_TURNS
        - ({ st with messages := st.messages
              ++ [⟨Role.user, MsgContent.ofString u⟩] } : LoopState).stats.turns)
      0 { st with messages := st.messages
            ++ [⟨Role.user, MsgContent.ofString u⟩] }
    refine ⟨hret, ?_⟩
    rw [hcount]
    simp [hturns]

/-- C7 witness: `maxTurns = 1` with a model that always requests a tool
returns the sentinel after exactly 1 turn; a first text-only response
returns its joined text; a tool turn followed by a text turn returns
the second turn's joined text after exactly 2 turns. -/
theorem claim_C7_witness :
    (AgentLoop.run wCfg1 (fun _ => ProviderOutcome.ok wRespTool) wExecOk wSt0
        "hi").1 = RunOutcome.returned "[Spirit: max turns reached]"
    ∧ (AgentLoop.run wCfg1 (fun _ => ProviderOutcome.ok wRespTool) wExecOk
        wSt0 "hi").2.1.stats.turns = 1
    ∧ (AgentLoop.run wCfg (fun _ => ProviderOutcome.ok wRespText) wExecOk wSt0
        "hi").1 = RunOutcome.returned (String.join
          (textPartsOf wRespText.content))
    ∧ (AgentLoop.run wCfg wProvSeq wExecOk wSt0 "list files").1
        = RunOutcome.returned (String.join (textPartsOf wRespText.content))
    ∧ (AgentLoop.run wCfg wProvSeq wExecOk wSt0
        "list files").2.1.stats.turns = 2 := by
  obtain ⟨hs, ht⟩ := claim_C7.2.2.2 wCfg1 (fun _ => ProviderOutcome.ok wRespTool)
    wExecOk wSt0 "hi"
    (fun i => ⟨wRespTool, rfl, rfl⟩)
    (fun n j => by simp [wExecOk])
    rfl
  obtain ⟨hg1, hg2⟩ := claim_C7.2.2.1 wCfg wProvSeq wExecOk wSt0 "list files"
    1 wRespText (by decide)
    (fun n j => by simp [wExecOk])
    (fun j hj => by
      have hj0 : j = 0 := by omega
      subst hj0
      exact ⟨wRespTool, rfl, rfl⟩)
    rfl rfl
  exact ⟨hs, ht, claim_C7.2.1 wCfg (fun _ => ProviderOutcome.ok wRespText)
    wExecOk wSt0 "hi" wRespText (by decide) rfl rfl, hg1, hg2.trans rfl⟩

/-- C8: the stream parsers are invariant under re-chunking of the byte
stream — delivering any chunking of the same event stream (including
splits in the middle of a token or line) yields the same finalized
content blocks and parsed argument values as delivering it whole. -/
theorem claim_C8 (cs ds : List (List Char)) (h : cs.flatten = ds.flatten) :
    AnthropicProvider.parseSSEStream cs = AnthropicProvider.parseSSEStream ds
    ∧ OpenAIProvider.parseSSEStream cs = OpenAIProvider.parseSSEStream ds := by
  constructor
  · unfold AnthropicProvider.parseSSEStream
    rw [runChunks_flatten anthropicSink _ cs,
      runChunks_flatten anthropicSink _ ds, h]
  · unfold OpenAIProvider.parseSSEStream
    rw [runChunks_flatten openaiSink _ cs,
      runChunks_flatten openaiSink _ ds, h]

/-- C8 witness: a concrete OpenAI stream whose tool-call argument
payload is split across chunks mid-token parses identically to the
one-chunk delivery. -/
theorem claim_C8_witness :
    c8chunksA.flatten = c8chunksB.flatten
    ∧ (AnthropicProvider.parseSSEStream c8chunksA
          = AnthropicProvider.parseSSEStream c8chunksB
        ∧ OpenAIProvider.parseSSEStream c8chunksA
          = OpenAIProvider.parseSSEStream c8chunksB) := by
  refine ⟨?_, claim_C8 c8chunksA c8chunksB ?_⟩ <;> rfl

/-- helper for C5: if any accumulated tool call of the OpenAI stream
state carries an argument payload that fails to parse, the assembly
loop rejects. -/
theorem assembleCalls_error_of_bad (calls : List (Nat × OAIToolCall))
    (acc : List LLMContentBlock) (p : Nat × OAIToolCall) (hp : p ∈ calls)
    (hbad : jsonParse (if p.2.args = "" then "{}" else p.2.args) = none) :
    ∃ e, OpenAIProvider.assembleCalls acc calls = Except.error e := by
  induction calls generalizing acc with
  | nil => cases hp
  | cons q rest ih =>
    by_cases hq : jsonParse (if q.2.args = "" then "{}" else q.2.args) = none
    · exact ⟨"SyntaxError: Unexpected token in JSON",
        by simp [OpenAIProvider.assembleCalls, hq]⟩
    · rcases hj : jsonParse (if q.2.args = "" then "{}" else q.2.args) with _ | j
      · exact absurd hj hq
      · rcases List.mem_cons.mp hp with hpq | hprest
        · subst hpq
          exact absurd hbad hq
        · obtain ⟨e, he⟩ :=
            ih (acc ++ [LLMContentBlock.toolUse q.2.id q.2.name j]) hprest
          exact ⟨e, by simp [OpenAIProvider.assembleCalls, hj, he]⟩

/-- C5 counterexample: the claim fails as stated for the OpenAI
adapter — a completed tool call whose accumulated payload `\x7bbad`
does not parse rejects the stream promise instead of finalizing with
an empty argument object. -/
theorem claim_C5_counterexample :
    jsonParse "\x7bbad" = none
    ∧ OpenAIProvider.parseSSEStream [oaiMalformedStream.data]
        = Except.error "SyntaxError: Unexpected token in JSON" := by
  exact ⟨rfl, rfl⟩

/-- C5 (amended): in the **Anthropic** adapter a completed tool call
whose accumulated argument payload fails to parse is finalized with an
empty argument object and parsing continues; in the **OpenAI** adapter
only an empty payload defaults to the empty object — a malformed
payload aborts stream assembly with an error. -/
theorem claim_C5 :
    (∀ (blocks : List LLMContentBlock) (sr : String) (itk otk idx : Nat)
        (meta : String × String) (json : String),
      jsonParse json = none →
      anthEvent ⟨blocks, sr, itk, otk, [], [], [(idx, json)], [(idx, meta)]⟩
          (mkStopEvent idx)
        = Except.ok ⟨blocks
            ++ [LLMContentBlock.toolUse meta.1 meta.2 (Json.obj [])],
            sr, itk, otk, [], [], [], []⟩)
    ∧ (∀ (st : OAIState) (p : Nat × OAIToolCall), p ∈ st.toolCalls →
        jsonParse (if p.2.args = "" then "{}" else p.2.args) = none →
        ∃ e, OpenAIProvider.assemble st = Except.error e)
    ∧ AnthropicProvider.parseSSEStream [anthMalformedStream.data]
        = Except.ok ⟨[LLMContentBlock.toolUse "t1" "Bash" (Json.obj [])],
            "tool_use", 10, 5⟩ := by
  refine ⟨?_, ?_, rfl⟩
  · intro blocks sr itk otk idx meta json hbad
    have h0 : ¬ ((idx : Int) < 0) := by omega
    simp [anthEvent, mkStopEvent, jsGet, jsEqStr, readIndex, asNat,
      mapHas, mapGet, mapDelete, List.lookup, hbad, Except.bind, bind,
      Except.map, Functor.map, pure, Except.pure, h0, Int.toNat_natCast]
  · intro st p hp hbad
    obtain ⟨e, he⟩ := assembleCalls_error_of_bad st.toolCalls
      (if st.textContent ≠ "" then [LLMContentBlock.text st.textContent]
        else []) p hp hbad
    refine ⟨e, ?_⟩
    unfold OpenAIProvider.assemble
    simp only []
    rw [he]
    rfl

/-- C5 witness: the amended theorem at concrete inputs — a pending
Anthropic tool call with payload `\x7bbad` finalizes to an empty object,
and the concrete OpenAI state with the same payload aborts assembly. -/
theorem claim_C5_witness :
    jsonParse "\x7bbad" = none
    ∧ anthEvent ⟨[], "end_turn", 10, 5, [], [], [(0, "\x7bbad")],
          [(0, ("t1", "Bash"))]⟩ (mkStopEvent 0)
        = Except.ok ⟨[LLMContentBlock.toolUse "t1" "Bash" (Json.obj [])],
            "end_turn", 10, 5, [], [], [], []⟩
    ∧ (0, OAIToolCall.mk "c1" "Bash" "\x7bbad")
        ∈ (⟨"Hi", [(0, ⟨"c1", "Bash", "\x7bbad"⟩)], "end_turn", 0, 0⟩
            : OAIState).toolCalls
    ∧ (∃ e, OpenAIProvider.assemble
          ⟨"Hi", [(0, ⟨"c1", "Bash", "\x7bbad"⟩)], "end_turn", 0, 0⟩
        = Except.error e) := by
  refine ⟨rfl, claim_C5.1 [] "end_turn" 10 5 0 ("t1", "Bash") "\x7bbad" rfl,
    ?_, claim_C5.2.1 _ (0, ⟨"c1", "Bash", "\x7bbad"⟩) ?_ rfl⟩
  · simp
  · simp

/-- C6: for every conversation of at least 4 messages, a successful
`compact()` leaves exactly 2 messages: the synthetic user message
embedding the summary returned by the extra provider call, then the
fixed assistant acknowledgment. -/
theorem claim_C6 (messages : List Message) (resp : LLMStreamedResponse)
    (h : 4 ≤ messages.length) :
    (AgentLoop.compact messages (ProviderOutcome.ok resp)).2.length = 2
    ∧ (AgentLoop.compact messages (ProviderOutcome.ok resp)).2
      = [⟨Role.user, MsgContent.ofString
            ("[Conversation summary from " ++ toString messages.length
              ++ " messages]\n\n" ++ String.join (textPartsOf resp.content))⟩,
         ⟨Role.assistant, MsgContent.ofString
            "Understood. I have the context from the conversation summary. How can I continue helping?"⟩] := by
  have hlt : ¬ messages.length < 4 := Nat.not_lt.mpr h
  constructor <;> simp [AgentLoop.compact, hlt]

/-- C6 witness: a concrete 4-message conversation compacts to the two
expected messages. -/
theorem claim_C6_witness :
    4 ≤ ([⟨Role.user, MsgContent.ofString "a"⟩,
          ⟨Role.assistant, MsgContent.ofString "b"⟩,
          ⟨Role.user, MsgContent.ofString "c"⟩,
          ⟨Role.assistant, MsgContent.ofString "d"⟩] : List Message).length
    ∧ (AgentLoop.compact
          [⟨Role.user, MsgContent.ofString "a"⟩,
            ⟨Role.assistant, MsgContent.ofString "b"⟩,
            ⟨Role.user, MsgContent.ofString "c"⟩,
            ⟨Role.assistant, MsgContent.ofString "d"⟩]
          (ProviderOutcome.ok ⟨[LLMContentBlock.text "Hello world"],
            "end_turn", 3, 4⟩)).2.length = 2 := by
  refine ⟨by simp, (claim_C6 _ _ (by simp)).1⟩

/-- C9: with every spawned run settled one way or the other, `waitAll`
returns exactly one result per currently-running task, in spawn order:
a failed run contributes an error entry (with its own id and the
rejection message — the `.catch` in `spawn` means one failure never
prevents the others from reporting), a successful one a completed
entry; the number of error entries equals the number of failed runs. -/
theorem claim_C9 (agents : List SpawnedAgent)
    (h : ∀ a ∈ agents, a.runState ≠ PromiseState.pending) :
    SubAgentManager.waitAll agents
        = PromiseState.fulfilled (agents.map runSettled)
    ∧ (agents.map runSettled).length = agents.length
    ∧ (∀ a ∈ agents, (runSettled a).id = a.id
        ∧ (∀ r, a.runState = PromiseState.fulfilled r →
            runSettled a = ⟨a.id, a.description.getD (a.prompt.take 80), r,
              SubStatus.completed, none⟩)
        ∧ (∀ m, a.runState = PromiseState.rejected m →
            runSettled a = ⟨a.id, a.description.getD (a.prompt.take 80), "",
              SubStatus.error, some m⟩))
    ∧ List.countP (fun r => r.status == SubStatus.error)
          (agents.map runSettled)
        = List.countP (fun a =>
            match a.runState with
            | PromiseState.rejected _ => true
            | _ => false) agents := by
  refine ⟨waitAll_settled agents h, by simp, ?_, ?_⟩
  · intro a ha
    have hne := h a ha
    refine ⟨?_, ?_, ?_⟩
    · cases hr : a.runState with
      | pending => exact absurd hr hne
      | fulfilled r => simp [runSettled, hr, SubAgentManager.settleResult]
      | rejected m => simp [runSettled, hr, SubAgentManager.settleResult]
    · intro r hr
      simp [runSettled, hr, SubAgentManager.settleResult]
    · intro m hr
      simp [runSettled, hr, SubAgentManager.settleResult]
  · rw [List.countP_map]
    induction agents with
    | nil => rfl
    | cons a rest ih =>
      rw [List.countP_cons, List.countP_cons,
        ih (fun x hx => h x (List.mem_cons_of_mem a hx))]
      have ha := h a (List.mem_cons_self a rest)
      cases hr : a.runState with
      | pending => exact absurd hr ha
      | fulfilled r =>
        simp [Function.comp, runSettled, hr, SubAgentManager.settleResult]
      | rejected m =>
        simp [Function.comp, runSettled, hr, SubAgentManager.settleResult]

set_option maxRecDepth 4096 in
/-- C9 witness: 3 spawned tasks, the second of which threw — `waitAll`
returns exactly 3 results, 1 error and 2 completed, in order. -/
theorem claim_C9_witness :
    (∀ a ∈ wAgents, a.runState ≠ PromiseState.pending)
    ∧ SubAgentManager.waitAll wAgents = PromiseState.fulfilled
        [⟨"1", "p1", "r1", SubStatus.completed, none⟩,
         ⟨"2", "d2", "", SubStatus.error, some "boom"⟩,
         ⟨"3", "p3", "r3", SubStatus.completed, none⟩]
    ∧ List.countP (fun r => r.status == SubStatus.error)
        (wAgents.map runSettled) = 1
    ∧ (wAgents.map runSettled).length = 3 := by
  have hw : ∀ a ∈ wAgents, a.runState ≠ PromiseState.pending := by
    intro a ha
    fin_cases ha <;> simp [wAgents]
  refine ⟨hw, ?_, ?_, ?_⟩
  · rw [(claim_C9 wAgents hw).1]
    rfl
  · rw [(claim_C9 wAgents hw).2.2.2]
    rfl
  · rw [(claim_C9 wAgents hw).2.1]
    rfl


theorem nextResultsMatch_append (m : Message) (xs ys : List Message)
    (h : nextResultsMatch m xs = true) :
    nextResultsMatch m (xs ++ ys) = true := by
  cases xs with
  | nil => simp [nextResultsMatch] at h
  | cons m2 rest =>
    rcases m2 with ⟨role2, content2⟩
    cases role2 with
    | assistant => simp [nextResultsMatch] at h
    | user =>
      cases content2 with
      | ofString s => simp [nextResultsMatch] at h
      | blocks bs => simp [nextResultsMatch] at h
      | results rs => simpa [nextResultsMatch] using h

theorem toolPairingOK_append (xs ys : List Message)
    (hx : toolPairingOK xs = true) (hy : toolPairingOK ys = true) :
    toolPairingOK (xs ++ ys) = true := by
  induction xs with
  | nil => simpa using hy
  | cons m xs' ih =>
    rw [List.cons_append]
    simp only [toolPairingOK, Bool.and_eq_true] at hx ⊢
    obtain ⟨hcond, hrest⟩ := hx
    refine ⟨?_, ih hrest⟩
    by_cases he : (assistantToolUses m).isEmpty
    · simp [he]
    · simp only [he, Bool.false_eq_true, if_false] at hcond ⊢
      exact nextResultsMatch_append m xs' ys hcond


theorem toolPairingOK_user_string (u : String) :
    toolPairingOK [⟨Role.user, MsgContent.ofString u⟩] = true := by
  simp [toolPairingOK, assistantToolUses]

theorem toolPairingOK_assistant_no_tools (bs : List LLMContentBlock)
    (h : (toolUsesOf bs).isEmpty = true) :
    toolPairingOK [⟨Role.assistant, MsgContent.blocks bs⟩] = true := by
  simp [toolPairingOK, assistantToolUses, h]

theorem toolPairingOK_pair (bs : List LLMContentBlock)
    (rs : List ToolResultBlock)
    (hids : rs.map (fun r => r.tool_use_id) = (toolUsesOf bs).map (fun t => t.id)) :
    toolPairingOK [⟨Role.assistant, MsgContent.blocks bs⟩,
      ⟨Role.user, MsgContent.results rs⟩] = true := by
  by_cases he : (toolUsesOf bs).isEmpty
  · simp [toolPairingOK, assistantToolUses, he, nextResultsMatch]
  · simp [toolPairingOK, assistantToolUses, he, nextResultsMatch, hids]

theorem runAux_pairing (cfg : AgentConfig) (provider : Nat → ProviderOutcome)
    (exec : String → Json → ToolOutcome) :
    ∀ (fuel idx : Nat) (st : LoopState),
      toolPairingOK st.messages = true →
      (runAux cfg provider exec fuel idx st).1 ≠ RunOutcome.hung →
      toolPairingOK (runAux cfg provider exec fuel idx st).2.1.messages
        = true := by
  intro fuel
  induction fuel with
  | zero => intro idx st h hnh; exact h
  | succ fuel ih =>
    intro idx st h hnh
    cases hp : provider idx with
    | err m =>
      simp only [runAux, hp]
      exact h
    | ok streamed =>
      cases hte : (toolUsesOf streamed.content).isEmpty with
      | true =>
        simp only [runAux, hp, hte, if_true]
        exact toolPairingOK_append _ _ h (toolPairingOK_assistant_no_tools _ hte)
      | false =>
        simp only [runAux, hp, hte, Bool.false_eq_true, if_false] at hnh ⊢
        cases hhb : (execToolUses cfg exec (toolUsesOf streamed.content)
            { inputTokens := st.stats.inputTokens + streamed.inputTokens,
              outputTokens := st.stats.outputTokens + streamed.outputTokens,
              totalTokens := st.stats.inputTokens + streamed.inputTokens
                + (st.stats.outputTokens + streamed.outputTokens),
              turns := st.stats.turns + 1,
              toolCalls := st.stats.toolCalls }).hung with
        | true =>
          rw [hhb] at hnh
          simp at hnh
        | false =>
          rw [hhb] at hnh
          simp only [Bool.false_eq_true, if_false] at hnh ⊢
          have hres := foldl_execOneTool_results cfg exec
            (toolUsesOf streamed.content) ⟨[],
              { inputTokens := st.stats.inputTokens + streamed.inputTokens,
                outputTokens := st.stats.outputTokens + streamed.outputTokens,
                totalTokens := st.stats.inputTokens + streamed.inputTokens
                  + (st.stats.outputTokens + streamed.outputTokens),
                turns := st.stats.turns + 1,
                toolCalls := st.stats.toolCalls }, [], false⟩ rfl hhb
          have hpair := toolPairingOK_pair streamed.content _
            (by simpa using hres)
          have hnew : toolPairingOK (st.messages
              ++ [⟨Role.assistant, MsgContent.blocks streamed.content⟩,
                  ⟨Role.user, MsgContent.results (execToolUses cfg exec
                    (toolUsesOf streamed.content)
                    { inputTokens := st.stats.inputTokens + streamed.inputTokens,
                      outputTokens := st.stats.outputTokens + streamed.outputTokens,
                      totalTokens := st.stats.inputTokens + streamed.inputTokens
                        + (st.stats.outputTokens + streamed.outputTokens),
                      turns := st.stats.turns + 1,
                      toolCalls := st.stats.toolCalls }).results⟩])
              = true := toolPairingOK_append _ _ h hpair
          have := ih (idx + 1) _ (by simpa using hnew) hnh
          simpa using this


/-- C3: for every turn of `AgentLoop.run` whose assistant message
contains at least one tool_use block, a user message holding exactly
one `ToolResult` per `ToolUse`, in the same order and with matching
ids, is appended immediately after it, before the next provider call:
if the run does not hang, the final conversation satisfies the pairing
invariant `toolPairingOK` (given it held before the run). -/
theorem claim_C3 (cfg : AgentConfig) (provider : Nat → ProviderOutcome)
    (exec : String → Json → ToolOutcome) (st : LoopState) (u : String)
    (hinit : toolPairingOK st.messages = true)
    (hnh : (AgentLoop.run cfg provider exec st u).1 ≠ RunOutcome.hung) :
    toolPairingOK (AgentLoop.run cfg provider exec st u).2.1.messages
      = true := by
  unfold AgentLoop.run at hnh ⊢
  exact runAux_pairing cfg provider exec _ 0 _
    (toolPairingOK_append _ _ hinit (toolPairingOK_user_string u)) hnh

/-- C3 witness: a two-turn run (one `Bash` tool call answered, then a
text turn) satisfies the pairing invariant at the end. -/
theorem claim_C3_witness :
    toolPairingOK wSt0.messages = true
    ∧ (AgentLoop.run wCfg wProvSeq wExecOk wSt0 "list files").1
        ≠ RunOutcome.hung
    ∧ toolPairingOK
        (AgentLoop.run wCfg wProvSeq wExecOk wSt0 "list files").2.1.messages
      = true := by
  refine ⟨rfl, by decide, claim_C3 wCfg wProvSeq wExecOk wSt0 "list files"
    rfl (by decide)⟩


theorem emittedStats_append (a b : List TraceEvent) :
    emittedStats (a ++ b) = emittedStats a ++ emittedStats b := by
  simp [emittedStats, List.filterMap_append]

theorem execToolUses_chain (cfg : AgentConfig)
    (exec : String → Json → ToolOutcome) (tus : List ToolUseBlock)
    (stats : SpiritStats) :
    List.Chain' statsLE (stats
        :: (emittedStats (execToolUses cfg exec tus stats).trace
          ++ [(execToolUses cfg exec tus stats).stats]))
    ∧ ∀ s ∈ emittedStats (execToolUses cfg exec tus stats).trace
        ++ [(execToolUses cfg exec tus stats).stats],
      statsFieldsEq s stats := by
  obtain ⟨E, hE, hchain, hfields⟩ :=
    foldl_execOneTool_chain cfg exec tus ⟨[], stats, [], false⟩ rfl
  have hE2 : emittedStats (execToolUses cfg exec tus stats).trace = E := hE
  constructor
  · rw [hE2]
    exact hchain
  · rw [hE2]
    exact hfields

theorem execToolUses_totalOK (cfg : AgentConfig)
    (exec : String → Json → ToolOutcome) (tus : List ToolUseBlock)
    (S : SpiritStats)
    (hS : S.totalTokens = S.inputTokens + S.outputTokens) :
    (∀ s ∈ emittedStats (execToolUses cfg exec tus S).trace,
        s.totalTokens = s.inputTokens + s.outputTokens)
    ∧ (execToolUses cfg exec tus S).stats.totalTokens
        = (execToolUses cfg exec tus S).stats.inputTokens
          + (execToolUses cfg exec tus S).stats.outputTokens := by
  obtain ⟨-, hfields⟩ := execToolUses_chain cfg exec tus S
  constructor
  · intro s hs
    obtain ⟨hin, hout, htot, -⟩ := hfields s (List.mem_append_left _ hs)
    rw [htot, hin, hout]
    exact hS
  · obtain ⟨hin, hout, htot, -⟩ :=
      hfields _ (List.mem_append_right _ (List.mem_singleton_self _))
    rw [htot, hin, hout]
    exact hS


theorem runAux_stats (cfg : AgentConfig) (provider : Nat → ProviderOutcome)
    (exec : String → Json → ToolOutcome) :
    ∀ (fuel idx : Nat) (st : LoopState),
      (∀ s ∈ emittedStats (runAux cfg provider exec fuel idx st).2.2,
          s.totalTokens = s.inputTokens + s.outputTokens)
      ∧ List.Chain' statsLE (st.stats
          :: (emittedStats (runAux cfg provider exec fuel idx st).2.2
            ++ [(runAux cfg provider exec fuel idx st).2.1.stats]))
      ∧ ((runAux cfg provider exec fuel idx st).2.1.stats = st.stats
          ∨ (runAux cfg provider exec fuel idx st).2.1.stats.totalTokens
              = (runAux cfg provider exec fuel idx st).2.1.stats.inputTokens
                + (runAux cfg provider exec fuel idx st).2.1.stats.outputTokens) := by
  intro fuel
  induction fuel with
  | zero =>
    intro idx st
    refine ⟨?_, ?_, Or.inl rfl⟩
    · intro s hs
      simp [runAux, emittedStats] at hs
    · simp [runAux, emittedStats, List.chain'_pair, statsLE_refl]
  | succ fuel ih =>
    intro idx st
    cases hp : provider idx with
    | err m =>
      refine ⟨?_, ?_, ?_⟩
      · intro s hs
        simp [runAux, hp, emittedStats] at hs
      · simp [runAux, hp, emittedStats, List.chain'_pair, statsLE_refl]
      · left
        simp [runAux, hp]
    | ok streamed =>
      have hle : statsLE st.stats
          ⟨st.stats.inputTokens + streamed.inputTokens,
            st.stats.outputTokens + streamed.outputTokens,
            st.stats.inputTokens + streamed.inputTokens
              + (st.stats.outputTokens + streamed.outputTokens),
            st.stats.turns + 1, st.stats.toolCalls⟩ :=
        ⟨Nat.le_add_right _ _, Nat.le_add_right _ _, Nat.le_succ _, le_refl _⟩
      by_cases hemp : (toolUsesOf streamed.content).isEmpty = true
      · refine ⟨?_, ?_, ?_⟩
        · intro s hs
          simp [runAux, hp, hemp, emittedStats] at hs
          simp [hs]
        · simp only [runAux, hp, hemp, if_true]
          simp [emittedStats, List.chain'_cons, List.chain'_pair,
            statsLE_refl, hle]
        · right
          simp [runAux, hp, hemp]
      · simp only [runAux, hp, hemp, Bool.false_eq_true, if_false]
        generalize hSg : (⟨st.stats.inputTokens + streamed.inputTokens,
            st.stats.outputTokens + streamed.outputTokens,
            st.stats.inputTokens + streamed.inputTokens
              + (st.stats.outputTokens + streamed.outputTokens),
            st.stats.turns + 1, st.stats.toolCalls⟩ : SpiritStats) = S
        have hSok : S.totalTokens = S.inputTokens + S.outputTokens := by
          rw [← hSg]
        have hleS : statsLE st.stats S := hSg ▸ hle
        obtain ⟨hchain, hfields⟩ :=
          execToolUses_chain cfg exec (toolUsesOf streamed.content) S
        obtain ⟨hok1, hok2⟩ :=
          execToolUses_totalOK cfg exec (toolUsesOf streamed.content) S hSok
        cases hh : (execToolUses cfg exec
            (toolUsesOf streamed.content) S).hung with
        | true =>
          simp only [hh, if_true]
          refine ⟨?_, ?_, Or.inr hok2⟩
          · intro s hs
            have hs2 : s ∈ S :: emittedStats (execToolUses cfg exec
                (toolUsesOf streamed.content) S).trace := hs
            rcases List.mem_cons.mp hs2 with h | h
            · rw [h]
              exact hSok
            · exact hok1 s h
          · exact List.chain'_cons.mpr ⟨hleS, hchain⟩
        | false =>
          simp only [hh, Bool.false_eq_true, if_false]
          obtain ⟨ih1, ih2, ih3⟩ := ih (idx + 1)
            ⟨(st.messages ++ [⟨Role.assistant, MsgContent.blocks streamed.content⟩])
                ++ [⟨Role.user, MsgContent.results (execToolUses cfg exec
                  (toolUsesOf streamed.content) S).results⟩],
              (execToolUses cfg exec (toolUsesOf streamed.content) S).stats⟩
          refine ⟨?_, ?_, ?_⟩
          · intro s hs
            rw [emittedStats_append, emittedStats_append] at hs
            rcases List.mem_append.mp hs with h | h
            · rcases List.mem_append.mp h with h2 | h2
              · have h3 : s ∈ ([S] : List SpiritStats) := h2
                rw [List.mem_singleton] at h3
                rw [h3]
                exact hSok
              · exact hok1 s h2
            · exact ih1 s h
          · have h1 : List.Chain' statsLE
                ((S :: emittedStats (execToolUses cfg exec
                    (toolUsesOf streamed.content) S).trace)
                  ++ [(execToolUses cfg exec
                    (toolUsesOf streamed.content) S).stats]) := hchain
            have hg := statsChain_glue h1 ih2
            rw [emittedStats_append, emittedStats_append,
              List.append_assoc, List.append_assoc]
            exact List.chain'_cons.mpr ⟨hleS, hg⟩
          · rcases ih3 with h | h
            · right
              rw [h]
              exact hok2
            · exact Or.inr h



/-- C10: after every stats update performed by `AgentLoop.run` (each
snapshot handed to `emitStats`, and the final stats unless the run
performed no update), `totalTokens` equals `inputTokens` plus
`outputTokens`; the counters `inputTokens`, `outputTokens`, `turns` and
`toolCalls` never decrease during a run (the successive snapshots,
ending in the final stats, form a `statsLE`-chain from the initial
stats); and `clearHistory()` resets the stats to all zeroes, which
again satisfy the total equation. -/
theorem claim_C10 (cfg : AgentConfig) (provider : Nat → ProviderOutcome)
    (exec : String → Json → ToolOutcome) (st : LoopState) (u : String) :
    (∀ s ∈ emittedStats (AgentLoop.run cfg provider exec st u).2.2,
        s.totalTokens = s.inputTokens + s.outputTokens)
    ∧ List.Chain' statsLE (st.stats
        :: (emittedStats (AgentLoop.run cfg provider exec st u).2.2
          ++ [(AgentLoop.run cfg provider exec st u).2.1.stats]))
    ∧ ((AgentLoop.run cfg provider exec st u).2.1.stats = st.stats
        ∨ (AgentLoop.run cfg provider exec st u).2.1.stats.totalTokens
            = (AgentLoop.run cfg provider exec st u).2.1.stats.inputTokens
              + (AgentLoop.run cfg provider exec st u).2.1.stats.outputTokens)
    ∧ AgentLoop.clearHistory.stats = ⟨0, 0, 0, 0, 0⟩
    ∧ AgentLoop.clearHistory.stats.totalTokens
        = AgentLoop.clearHistory.stats.inputTokens
          + AgentLoop.clearHistory.stats.outputTokens := by
  obtain ⟨h1, h2, h3⟩ := runAux_stats cfg provider exec
    (cfg.maxTurns.getD DEFAULT_MAX_TURNS
      - ({ st with messages := st.messages
            ++ [⟨Role.user, MsgContent.ofString u⟩] } : LoopState).stats.turns)
    0
    { st with messages := st.messages ++ [⟨Role.user, MsgContent.ofString u⟩] }
  exact ⟨h1, h2, h3, rfl, rfl⟩


end Spirit
